import Mathlib

/-!
# Verification of the vtfs in-memory filesystem core

Shallow embedding of the vtfs kernel module (files `vtfs_file.c`,
`vtfs_inode.c`, `vtfs_dir.c`, header `vtfs.h`) and proofs of the
specification claims about it.

Modelling conventions:
* machine integers are `Nat` (sizes, `size_t`) and `Int` (`loff_t`
  offsets), with the C overflow checks translated explicitly against
  `SIZE_MAX`;
* bytes are `Nat`; buffers are `List Nat` (a data pointer is
  `Option (List Nat)`, `none` modelling a NULL `data` pointer);
* the node tree is a heap `Nat → Option NodeRec` mapping addresses to
  node records; pointers are addresses, `kfree` removes an address;
* pointer-chasing loops take an explicit fuel argument and return
  `none` when the fuel runs out (every theorem holds for any
  sufficiently large fuel);
* `copy_from_user` may stop early: the model takes the number of bytes
  the user side can deliver (`copyCap`) and copies
  `min len copyCap` bytes, zero-filling the uncopied tail of the
  destination as the kernel primitive does.  `copy_to_user` and
  `krealloc` are assumed to succeed (the host-side fault of a read and
  memory exhaustion are environment failures outside the claims);
* the per-node mutex is not modelled: every operation is atomic here.
-/

/-- `SIZE_MAX` for the 64-bit kernel the module targets. -/
def SIZE_MAX : Nat := 2 ^ 64 - 1

/-- `PAGE_SIZE`: the fixed minimum capacity unit. -/
def PAGE_SIZE : Nat := 4096

/-- `VTFS_FILE_NAME_LEN` from `vtfs.h`: the size of the `name` array. -/
def VTFS_FILE_NAME_LEN : Nat := 255

/-- `S_IFMT` file-type mask. -/
def S_IFMT : Nat := 0xF000

/-- `S_IFDIR` directory type bits. -/
def S_IFDIR : Nat := 0x4000

/-- `S_IFREG` regular-file type bits. -/
def S_IFREG : Nat := 0x8000

/-- Error outcomes returned by the vtfs operations (negative errnos in C). -/
inductive Err where
  | EINVAL | EISDIR | EFBIG | ENOMEM | EFAULT | EIO
  | EEXIST | ENOENT | EPERM | ENOTDIR | ENOTEMPTY
deriving DecidableEq, Repr

deriving instance DecidableEq for Except

/-- `struct vtfs_node` from `vtfs.h`.  The mutex is not modelled.
`data = none` is a NULL data pointer. -/
structure NodeRec where
  name : List Nat
  ino : Nat
  isDir : Bool
  mode : Nat
  parent : Option Nat
  firstChild : Option Nat
  nextSibling : Option Nat
  linkTarget : Option Nat
  data : Option (List Nat)
  size : Nat
  capacity : Nat
deriving DecidableEq, Repr

/-- The node heap: addresses to allocated records. -/
def Heap : Type := Nat → Option NodeRec

/-- Store a record at an address. -/
def hset (h : Heap) (a : Nat) (r : NodeRec) : Heap :=
  fun b => if b = a then some r else h b

/-- `kfree`: deallocate an address. -/
def hfree (h : Heap) (a : Nat) : Heap :=
  fun b => if b = a then none else h b

@[simp] theorem hset_same (h : Heap) (a : Nat) (r : NodeRec) : hset h a r a = some r := by
  simp [hset]

@[simp] theorem hset_other (h : Heap) (a b : Nat) (r : NodeRec) (hne : b ≠ a) :
    hset h a r b = h b := by
  simp [hset, hne]

@[simp] theorem hfree_same (h : Heap) (a : Nat) : hfree h a a = none := by
  simp [hfree]

@[simp] theorem hfree_other (h : Heap) (a b : Nat) (hne : b ≠ a) : hfree h a b = h b := by
  simp [hfree, hne]

/-! ## Byte-buffer primitives -/

/-- Overwrite `src.length` bytes of `d` starting at `off`
(a `memcpy`/`memset` into an in-bounds region). -/
def writeBytes (d : List Nat) (off : Nat) (src : List Nat) : List Nat :=
  d.take off ++ src ++ d.drop (off + src.length)

theorem writeBytes_length (d src : List Nat) (off : Nat)
    (h : off + src.length ≤ d.length) : (writeBytes d off src).length = d.length := by
  simp [writeBytes]
  omega

theorem writeBytes_getElem?_left (d src : List Nat) (off i : Nat)
    (hd : off ≤ d.length) (hi : i < off) :
    (writeBytes d off src)[i]? = d[i]? := by
  unfold writeBytes
  rw [List.getElem?_append_left (by simp; omega)]
  rw [List.getElem?_append_left (by simp; omega)]
  exact List.getElem?_take_of_lt hi

theorem writeBytes_getElem?_mid (d src : List Nat) (off i : Nat)
    (hd : off ≤ d.length) (h1 : off ≤ i) (h2 : i < off + src.length) :
    (writeBytes d off src)[i]? = src[i - off]? := by
  unfold writeBytes
  rw [List.getElem?_append_left (by simp; omega)]
  rw [List.getElem?_append_right (by simp; omega)]
  congr 1
  simp
  omega

theorem writeBytes_getElem?_right (d src : List Nat) (off i : Nat)
    (hd : off + src.length ≤ d.length) (hi : off + src.length ≤ i) :
    (writeBytes d off src)[i]? = d[i]? := by
  unfold writeBytes
  rw [List.getElem?_append_right (by simp; omega)]
  rw [List.getElem?_drop]
  congr 1
  simp
  omega

/-- Extracting the written region gives back `src`. -/
theorem writeBytes_extract (d src : List Nat) (off : Nat)
    (h : off + src.length ≤ d.length) :
    ((writeBytes d off src).drop off).take src.length = src := by
  apply List.ext_getElem?
  intro n
  by_cases hn : n < src.length
  · rw [List.getElem?_take_of_lt hn, List.getElem?_drop]
    rw [writeBytes_getElem?_mid d src off (off + n) (by omega) (by omega) (by omega)]
    congr 1
    omega
  · rw [List.getElem?_eq_none (by simp; omega), List.getElem?_eq_none (by omega)]

/-- The prefix before the written region is unchanged. -/
theorem writeBytes_take (d src : List Nat) (off : Nat) (hd : off ≤ d.length)
    (h : off + src.length ≤ d.length) :
    (writeBytes d off src).take off = d.take off := by
  apply List.ext_getElem?
  intro n
  by_cases hn : n < off
  · rw [List.getElem?_take_of_lt hn, List.getElem?_take_of_lt hn]
    exact writeBytes_getElem?_left d src off n hd hn
  · rw [List.getElem?_eq_none (by simp; omega), List.getElem?_eq_none (by simp; omega)]

/-! ## Buffer engine (`vtfs_file.c`) -/

/-- The capacity-doubling loop of `vtfs_write`:
`while (new_capacity < end_pos) { if (new_capacity > SIZE_MAX / 2) fail; new_capacity *= 2; }`.
The loop is modelled with an explicit fuel; `GROW_FUEL` provably
suffices for every reachable call (the loop is entered with
`new_capacity ≥ PAGE_SIZE` and `end_pos ≤ SIZE_MAX`). -/
def growLoopF : Nat → Nat → Nat → Option Nat
  | _, _, 0 => none
  | c, e, fuel + 1 =>
    if c < e then
      if SIZE_MAX / 2 < c then none
      else growLoopF (c * 2) e fuel
    else some c

/-- Fuel that always suffices for `growLoopF` (the capacity at least
doubles each step and the loop stops once it reaches `2 ^ 63`). -/
def GROW_FUEL : Nat := 70

/-- Result of `vtfs_write`: the return value, the node state after the
call, and the file position `*ppos` after the call. -/
structure WriteResult where
  ret : Except Err Nat
  node : NodeRec
  pos : Int
deriving DecidableEq, Repr

/-- The capacity-growth block of `vtfs_write` (the `end_pos > capacity`
branch): pick the new capacity by doubling, `krealloc`, and zero-fill
the newly grown region beyond the old capacity.  `krealloc` is assumed
to succeed; `none` is the `-EFBIG` overflow failure. -/
def growStep (node : NodeRec) (endPos : Nat) : Option NodeRec :=
  if endPos > node.capacity then
    let c0 := if node.capacity = 0 then PAGE_SIZE else node.capacity
    match growLoopF c0 endPos GROW_FUEL with
    | none => none
    | some nc =>
      let old := node.data.getD []
      some { node with
              data := some (old ++ List.replicate (nc - node.capacity) 0),
              capacity := nc }
  else some node

/-- Overwrite bytes of a node's buffer in place. -/
def setBytes (node : NodeRec) (off : Nat) (src : List Nat) : NodeRec :=
  { node with data := some (writeBytes (node.data.getD []) off src) }

/-- `vtfs_write` acting on the resolved data node (`vtfs_file.c:67`).
`ppos` is `*ppos`, `buf` the user bytes, `copyCap` how many bytes
`copy_from_user` can transfer before faulting, `append` the
`O_APPEND` flag.  The `!node` and `node->is_dir` guards precede
everything; the caller passes the resolved data-owning node. -/
def vtfs_write_node (node : NodeRec) (ppos : Int) (buf : List Nat)
    (copyCap : Nat) (append : Bool) : WriteResult :=
  if node.isDir then ⟨.error .EISDIR, node, ppos⟩
  else
    let pos : Int := if append then (node.size : Int) else ppos
    if pos < 0 then ⟨.error .EINVAL, node, ppos⟩
    else
      let len := buf.length
      if len = 0 then ⟨.ok 0, node, ppos⟩
      else
        let p : Nat := pos.toNat
        if p > SIZE_MAX then ⟨.error .EFBIG, node, ppos⟩
        else if len > SIZE_MAX - p then ⟨.error .EFBIG, node, ppos⟩
        else
          let endPos := p + len
          match growStep node endPos with
          | none => ⟨.error .EFBIG, node, ppos⟩
          | some node1 =>
            let node2 :=
              if p > node1.size then
                setBytes node1 node1.size (List.replicate (p - node1.size) 0)
              else node1
            let copied := min len copyCap
            if copied < len then
              -- copy_from_user stopped early: the copied prefix is in
              -- place, the uncopied tail of the destination is zeroed
              let node3 := setBytes node2 p (buf.take copied ++ List.replicate (len - copied) 0)
              let node4 :=
                if p + copied > node3.size then { node3 with size := p + copied } else node3
              ⟨if copied = 0 then .error .EFAULT else .ok copied, node4, pos + copied⟩
            else
              let node3 := setBytes node2 p buf
              let node4 := if endPos > node3.size then { node3 with size := endPos } else node3
              ⟨.ok len, node4, pos + len⟩

/-- `vtfs_read` acting on the resolved data node (`vtfs_file.c:8`).
Returns the bytes copied to the user and the updated `*ppos`
(`copy_to_user` is assumed to succeed). -/
def vtfs_read_node (node : NodeRec) (ppos : Int) (len : Nat) :
    Except Err (List Nat × Int) :=
  if node.isDir then .error .EISDIR
  else if ppos < 0 then .error .EINVAL
  else
    let p : Nat := ppos.toNat
    match node.data with
    | none => .ok ([], ppos)
    | some d =>
      if p ≥ node.size then .ok ([], ppos)
      else
        let available := node.size - p
        let toCopy := min available len
        if toCopy = 0 then .ok ([], ppos)
        else .ok ((d.drop p).take toCopy, ppos + toCopy)

/-- `vtfs_open` with `O_TRUNC` (`vtfs_file.c:200`): release the buffer
and reset `size` and `capacity`. -/
def vtfs_truncate_node (node : NodeRec) : NodeRec :=
  { node with data := none, size := 0, capacity := 0 }

/-- Well-formedness of a node's buffer fields, maintained by the code:
a NULL `data` goes with zero capacity, otherwise the allocation length
is `capacity`, and `size ≤ capacity`. -/
def BufWf (node : NodeRec) : Prop :=
  (node.data.getD []).length = node.capacity ∧ node.size ≤ node.capacity

instance (node : NodeRec) : Decidable (BufWf node) := by
  unfold BufWf
  exact inferInstance

/-! ## Properties of the capacity-doubling loop -/

theorem growLoopF_ge (c e fuel : Nat) (r : Nat) (h : growLoopF c e fuel = some r) :
    e ≤ r := by
  induction fuel generalizing c with
  | zero => simp [growLoopF] at h
  | succ fuel ih =>
    unfold growLoopF at h
    by_cases hce : c < e
    · simp only [hce, if_true] at h
      by_cases hov : SIZE_MAX / 2 < c
      · simp [hov] at h
      · simp only [hov, if_false] at h
        exact ih _ h
    · simp only [hce, if_false] at h
      cases h
      omega

/-- A successful growth is the start capacity doubled a minimal number
of times. -/
theorem growLoopF_pow (c e fuel : Nat) (r : Nat) (h : growLoopF c e fuel = some r) :
    ∃ k, r = c * 2 ^ k ∧ (k = 0 ∨ c * 2 ^ (k - 1) < e) := by
  induction fuel generalizing c with
  | zero => simp [growLoopF] at h
  | succ fuel ih =>
    unfold growLoopF at h
    by_cases hce : c < e
    · simp only [hce, if_true] at h
      by_cases hov : SIZE_MAX / 2 < c
      · simp [hov] at h
      · simp only [hov, if_false] at h
        obtain ⟨k, hk, hmin⟩ := ih _ h
        refine ⟨k + 1, by rw [hk]; ring, Or.inr ?_⟩
        rcases hmin with h0 | hlt
        · subst h0; simpa using hce
        · have hpow : 2 ^ k ≤ 2 * 2 ^ (k - 1) := by
            cases k with
            | zero => simp
            | succ k => simp [Nat.pow_succ]; omega
          calc c * 2 ^ k ≤ c * (2 * 2 ^ (k - 1)) := Nat.mul_le_mul_left c hpow
            _ = c * 2 * 2 ^ (k - 1) := by ring
            _ < e := hlt
    · simp only [hce, if_false] at h
      cases h
      exact ⟨0, by omega, Or.inl rfl⟩

theorem sizeMaxHalf : SIZE_MAX / 2 = 2 ^ 63 - 1 := by decide

/-- With enough fuel the loop always terminates successfully when the
target fits below `2 ^ 63`. -/
theorem growLoopF_succeeds (e : Nat) (he : 0 < e) (hle : e ≤ 2 ^ 63) :
    ∀ fuel c, 0 < c → e ≤ c * 2 ^ fuel → ∃ r, growLoopF c e (fuel + 1) = some r := by
  intro fuel
  induction fuel with
  | zero =>
    intro c hc hcb
    refine ⟨c, ?_⟩
    unfold growLoopF
    have : ¬ c < e := by simpa using hcb
    simp [this]
  | succ fuel ih =>
    intro c hc hcb
    by_cases hce : c < e
    · have hov : ¬ SIZE_MAX / 2 < c := by
        rw [sizeMaxHalf]
        omega
      obtain ⟨r, hr⟩ := ih (c * 2) (by omega) (by
        have : c * 2 * 2 ^ fuel = c * 2 ^ (fuel + 1) := by ring
        omega)
      refine ⟨r, ?_⟩
      unfold growLoopF
      simp [hce, hov, hr]
    · refine ⟨c, ?_⟩
      unfold growLoopF
      simp [hce]

/-- If some doubling stage that is still short of the target exceeds
`SIZE_MAX / 2`, the loop fails: doubling would overflow `size_t`. -/
theorem growLoopF_none_of_overflow (e : Nat) :
    ∀ (k c : Nat), (∀ j, j ≤ k → c * 2 ^ j < e) → SIZE_MAX / 2 < c * 2 ^ k →
    ∀ fuel, growLoopF c e fuel = none := by
  intro k
  induction k with
  | zero =>
    intro c hbelow hov fuel
    cases fuel with
    | zero => simp [growLoopF]
    | succ fuel =>
      have h0 := hbelow 0 (Nat.le_refl 0)
      simp only [pow_zero, mul_one] at h0 hov
      unfold growLoopF
      simp [h0, hov]
  | succ k ih =>
    intro c hbelow hov fuel
    cases fuel with
    | zero => simp [growLoopF]
    | succ fuel =>
      have h0 := hbelow 0 (Nat.zero_le _)
      simp only [pow_zero, mul_one] at h0
      unfold growLoopF
      by_cases hovc : SIZE_MAX / 2 < c
      · simp [h0, hovc]
      · simp only [h0, if_true, hovc, if_false]
        refine ih (c * 2) (fun j hj => ?_) ?_ fuel
        · have h := hbelow (j + 1) (by omega)
          calc c * 2 * 2 ^ j = c * 2 ^ (j + 1) := by ring
            _ < e := h
        · calc SIZE_MAX / 2 < c * 2 ^ (k + 1) := hov
            _ = c * 2 * 2 ^ k := by ring

/-- Characterization of the growth block on every input the write path
can reach: it succeeds, the new buffer has allocation length equal to
the (sufficient) new capacity, keeps the old contents, and zero-fills
the region beyond the old capacity. -/
theorem growStep_spec (node : NodeRec) (endPos : Nat) (hwf : BufWf node)
    (hpos : 0 < endPos) (hle : endPos ≤ 2 ^ 63) :
    ∃ node1 d1, growStep node endPos = some node1 ∧
      node1.data = some d1 ∧
      d1.length = node1.capacity ∧
      endPos ≤ node1.capacity ∧
      node1.size = node.size ∧
      node1.isDir = node.isDir ∧
      node.capacity ≤ node1.capacity ∧
      (∀ i, i < node.capacity → d1[i]? = (node.data.getD [])[i]?) ∧
      (∀ i, node.capacity ≤ i → i < node1.capacity → d1[i]? = some 0) ∧
      (node.capacity < endPos →
        growLoopF (if node.capacity = 0 then PAGE_SIZE else node.capacity)
          endPos GROW_FUEL = some node1.capacity) ∧
      (endPos ≤ node.capacity → node1 = node) := by
  obtain ⟨hwf1, hwf2⟩ := hwf
  by_cases hgrow : node.capacity < endPos
  · -- the end_pos > capacity branch: the loop runs
    have hc0 : 0 < (if node.capacity = 0 then PAGE_SIZE else node.capacity) := by
      unfold PAGE_SIZE
      split <;> omega
    obtain ⟨nc, hnc⟩ := growLoopF_succeeds endPos hpos hle 69
      (if node.capacity = 0 then PAGE_SIZE else node.capacity) hc0
      (by
        have h1 : (2:Nat) ^ 63 ≤ 2 ^ 69 := Nat.pow_le_pow_right (by omega) (by omega)
        have h2 : (2:Nat) ^ 69 ≤ (if node.capacity = 0 then PAGE_SIZE else node.capacity) * 2 ^ 69 := by
          calc (2:Nat) ^ 69 = 1 * 2 ^ 69 := by ring
            _ ≤ _ := Nat.mul_le_mul_right _ hc0
        omega)
    have hNC : growLoopF (if node.capacity = 0 then PAGE_SIZE else node.capacity)
        endPos GROW_FUEL = some nc := by
      have : GROW_FUEL = 69 + 1 := by decide
      rw [this]
      exact hnc
    have hge : endPos ≤ nc := growLoopF_ge _ _ _ _ hNC
    have hcapnc : node.capacity ≤ nc := by omega
    refine ⟨{ node with
              data := some (node.data.getD [] ++ List.replicate (nc - node.capacity) 0),
              capacity := nc },
            node.data.getD [] ++ List.replicate (nc - node.capacity) 0,
            ?_, rfl, ?_, ?_, rfl, rfl, ?_, ?_, ?_, ?_, ?_⟩
    · unfold growStep
      simp only [gt_iff_lt, hgrow, if_true, hNC]
    · simp
      omega
    · simpa using hge
    · simpa using hcapnc
    · intro i hi
      rw [List.getElem?_append_left (by omega)]
    · intro i h1 h2
      simp only at h2
      rw [List.getElem?_append_right (by omega)]
      rw [List.getElem?_replicate]
      rw [if_pos (by omega)]
    · intro _
      simpa using hNC
    · intro h
      omega
  · -- end_pos ≤ capacity: nothing to do
    have hcap0 : 0 < node.capacity := by omega
    have hdata : ∃ d, node.data = some d := by
      cases hd : node.data with
      | none => rw [hd] at hwf1; simp at hwf1; omega
      | some d => exact ⟨d, rfl⟩
    obtain ⟨d, hd⟩ := hdata
    refine ⟨node, d, ?_, hd, ?_, by omega, rfl, rfl, Nat.le_refl _, ?_, ?_, ?_, fun _ => rfl⟩
    · unfold growStep
      simp [hgrow]
    · rw [hd] at hwf1; simpa using hwf1
    · intro i _
      rw [hd]
      rfl
    · intro i h1 h2
      omega
    · intro h
      omega

/-- Full characterization of a successful, fully copied, non-append
`vtfs_write` call: return value, new position, new size, the written
region, the preserved prefix, the zero-filled gap and the zero-filled
grown region. -/
theorem vtfs_write_node_full (node : NodeRec) (ppos : Int) (buf : List Nat) (copyCap : Nat)
    (hdir : node.isDir = false) (hpos : 0 ≤ ppos) (hwf : BufWf node)
    (hlen : 0 < buf.length) (hcap : buf.length ≤ copyCap)
    (hbound : ppos.toNat + buf.length ≤ 2 ^ 63) :
    ∃ nodeW dW,
      vtfs_write_node node ppos buf copyCap false =
        ⟨.ok buf.length, nodeW, ppos + buf.length⟩ ∧
      nodeW.isDir = false ∧
      nodeW.size = max node.size (ppos.toNat + buf.length) ∧
      nodeW.data = some dW ∧
      dW.length = nodeW.capacity ∧
      ppos.toNat + buf.length ≤ nodeW.capacity ∧
      ((dW.drop ppos.toNat).take buf.length = buf) ∧
      (∀ i, i < node.size → i < ppos.toNat → dW[i]? = (node.data.getD [])[i]?) ∧
      (∀ i, node.size ≤ i → i < ppos.toNat → dW[i]? = some 0) ∧
      (∀ i, ppos.toNat + buf.length ≤ i → node.capacity ≤ i → i < nodeW.capacity →
        dW[i]? = some 0) ∧
      (node.capacity < ppos.toNat + buf.length →
        growLoopF (if node.capacity = 0 then PAGE_SIZE else node.capacity)
          (ppos.toNat + buf.length) GROW_FUEL = some nodeW.capacity) ∧
      (ppos.toNat + buf.length ≤ node.capacity → nodeW.capacity = node.capacity) := by
  have hwf2 : node.size ≤ node.capacity := hwf.2
  obtain ⟨node1, d1, hgs, hd1, hlen1, hende, hsz1, hdir1, hcaple, hpre1, hzero1, hgrowc, hnoc⟩ :=
    growStep_spec node (ppos.toNat + buf.length) hwf (by omega) hbound
  have hnotneg : ¬ ppos < 0 := by omega
  have hlenne : ¬ buf.length = 0 := by omega
  have hsm : (2:Nat) ^ 63 < SIZE_MAX := by decide
  have hpmax : ¬ ppos.toNat > SIZE_MAX := by omega
  have hlenmax : ¬ buf.length > SIZE_MAX - ppos.toNat := by omega
  -- the gap zero-fill step
  have hnode2 : ∃ node2 d2,
      (if ppos.toNat > node1.size then
        setBytes node1 node1.size (List.replicate (ppos.toNat - node1.size) 0)
       else node1) = node2 ∧
      node2.data = some d2 ∧
      d2.length = d1.length ∧
      node2.size = node.size ∧
      node2.capacity = node1.capacity ∧
      node2.isDir = false ∧
      (∀ i, i < node.size → i < ppos.toNat → d2[i]? = d1[i]?) ∧
      (∀ i, node.size ≤ i → i < ppos.toNat → d2[i]? = some 0) ∧
      (∀ i, ppos.toNat ≤ i → d2[i]? = d1[i]?) := by
    by_cases hgap : ppos.toNat > node1.size
    · have hfit : node1.size + (ppos.toNat - node1.size) ≤ d1.length := by omega
      refine ⟨{ node1 with data := some (writeBytes d1 node1.size
                  (List.replicate (ppos.toNat - node1.size) 0)) },
              writeBytes d1 node1.size (List.replicate (ppos.toNat - node1.size) 0),
              ?_, rfl, ?_, hsz1 ▸ rfl, rfl, by simpa [hdir] using hdir1, ?_, ?_, ?_⟩
      · rw [if_pos hgap]
        unfold setBytes
        rw [hd1]
        simp only [Option.getD_some]
      · rw [writeBytes_length]
        simpa using hfit
      · intro i h1 h2
        exact writeBytes_getElem?_left _ _ _ _ (by omega) (by omega)
      · intro i h1 h2
        rw [writeBytes_getElem?_mid _ _ _ _ (by omega) (by omega) (by simp; omega)]
        rw [List.getElem?_replicate]
        rw [if_pos (by omega)]
      · intro i h1
        exact writeBytes_getElem?_right _ _ _ _ (by simp; omega) (by simp; omega)
    · refine ⟨node1, d1, if_neg hgap, hd1, rfl, hsz1, rfl, by simpa [hdir] using hdir1,
              fun i _ _ => rfl, ?_, fun i _ => rfl⟩
      intro i h1 h2
      omega
  obtain ⟨node2, d2, hn2eq, hd2, hdlen2, hsz2, hcap2, hdir2, hpre2, hgap2, hright2⟩ := hnode2
  have hfit2 : ppos.toNat + buf.length ≤ d2.length := by omega
  -- reduce the write definition to its success result
  obtain ⟨nodeW, hmain, hcapW, hszW, hdirW, hdataW⟩ :
      ∃ nodeW,
        vtfs_write_node node ppos buf copyCap false =
          ⟨.ok buf.length, nodeW, ppos + buf.length⟩ ∧
        nodeW.capacity = node1.capacity ∧
        nodeW.size = max node.size (ppos.toNat + buf.length) ∧
        nodeW.isDir = false ∧
        nodeW.data = some (writeBytes d2 ppos.toNat buf) := by
    have hmain : vtfs_write_node node ppos buf copyCap false =
        ⟨.ok buf.length,
          if ppos.toNat + buf.length > node2.size
          then { node2 with data := some (writeBytes d2 ppos.toNat buf),
                            size := ppos.toNat + buf.length }
          else { node2 with data := some (writeBytes d2 ppos.toNat buf) },
          ppos + buf.length⟩ := by
      unfold vtfs_write_node
      simp only [hdir, Bool.false_eq_true, if_false, Bool.if_false_left, Bool.and_self,
        hnotneg, hlenne, hpmax, hlenmax, if_false, hgs, Nat.min_eq_left hcap, lt_irrefl]
      rw [hn2eq]
      unfold setBytes
      rw [hd2]
      simp only [Option.getD_some, lt_irrefl, if_false]
    refine ⟨_, hmain, ?_, ?_, ?_, ?_⟩
    · by_cases hsf : ppos.toNat + buf.length > node2.size
      · rw [if_pos hsf]; exact hcap2
      · rw [if_neg hsf]; exact hcap2
    · by_cases hsf : ppos.toNat + buf.length > node2.size
      · rw [if_pos hsf]
        show ppos.toNat + buf.length = max node.size (ppos.toNat + buf.length)
        omega
      · rw [if_neg hsf]
        show node2.size = max node.size (ppos.toNat + buf.length)
        omega
    · by_cases hsf : ppos.toNat + buf.length > node2.size
      · rw [if_pos hsf]; exact hdir2
      · rw [if_neg hsf]; exact hdir2
    · by_cases hsf : ppos.toNat + buf.length > node2.size
      · rw [if_pos hsf]
      · rw [if_neg hsf]
  refine ⟨nodeW, writeBytes d2 ppos.toNat buf, hmain, hdirW, hszW, hdataW, ?_, ?_, ?_, ?_, ?_,
    ?_, ?_, ?_⟩
  · rw [writeBytes_length _ _ _ hfit2, hdlen2, hlen1, hcapW]
  · rw [hcapW]
    omega
  · exact writeBytes_extract _ _ _ hfit2
  · intro i h1 h2
    rw [writeBytes_getElem?_left _ _ _ _ (by omega) h2]
    rw [hpre2 i h1 h2]
    exact hpre1 i (by omega)
  · intro i h1 h2
    rw [writeBytes_getElem?_left _ _ _ _ (by omega) h2]
    exact hgap2 i h1 h2
  · intro i h1 hc h2
    rw [hcapW] at h2
    rw [writeBytes_getElem?_right _ _ _ _ (by omega) h1]
    rw [hright2 i (by omega)]
    exact hzero1 i hc h2
  · intro h
    rw [hcapW]
    exact hgrowc h
  · intro h
    rw [hcapW, hnoc h]

/-- Round trip: a successful full write followed by a read at the same
offset and length returns exactly the written bytes. -/
theorem write_read_roundtrip (node : NodeRec) (ppos : Int) (buf : List Nat) (copyCap : Nat)
    (hdir : node.isDir = false) (hpos : 0 ≤ ppos) (hwf : BufWf node)
    (hcap : buf.length ≤ copyCap)
    (hbound : ppos.toNat + buf.length ≤ 2 ^ 63) :
    (vtfs_write_node node ppos buf copyCap false).ret = .ok buf.length ∧
    vtfs_read_node (vtfs_write_node node ppos buf copyCap false).node ppos buf.length =
      .ok (buf, ppos + buf.length) := by
  have hneg : ¬ ppos < 0 := not_lt.mpr hpos
  by_cases hlen : buf.length = 0
  · -- a zero-length write succeeds trivially, writing nothing
    have hbuf : buf = [] := List.length_eq_zero.mp hlen
    subst hbuf
    have h0 : vtfs_write_node node ppos [] copyCap false = ⟨.ok 0, node, ppos⟩ := by
      unfold vtfs_write_node
      simp [hdir, hneg]
    rw [h0]
    refine ⟨rfl, ?_⟩
    show vtfs_read_node node ppos 0 = .ok ([], ppos + (0:Nat))
    unfold vtfs_read_node
    cases hd : node.data with
    | none => simp [hdir, hneg, hd]
    | some d =>
      by_cases hge : ppos.toNat ≥ node.size <;> simp [hdir, hneg, hd, hge]
  · obtain ⟨nodeW, dW, hmain, hdirW, hszW, hdataW, hlenW, hcapW, hextract,
      hpre, hgap, hbeyond, hgrow, hnoc⟩ :=
      vtfs_write_node_full node ppos buf copyCap hdir hpos hwf (by omega) hcap hbound
    rw [hmain]
    refine ⟨rfl, ?_⟩
    show vtfs_read_node nodeW ppos buf.length = .ok (buf, ppos + buf.length)
    unfold vtfs_read_node
    have hnotEOF : ¬ ppos.toNat ≥ nodeW.size := by omega
    have hmin : min (nodeW.size - ppos.toNat) buf.length = buf.length := by omega
    rw [hdataW]
    simp only [hdirW, Bool.false_eq_true, if_false, hneg, hnotEOF, hmin, hlen, hextract]

/-- Characterization of a write whose `copy_from_user` stops early:
the return value is the number of bytes actually copied (an error only
when that is zero), `*ppos` advances by exactly that number, and `size`
accounts for exactly the copied bytes. -/
theorem vtfs_write_node_short (node : NodeRec) (ppos : Int) (buf : List Nat) (copyCap : Nat)
    (hdir : node.isDir = false) (hpos : 0 ≤ ppos) (hwf : BufWf node)
    (hshort : copyCap < buf.length)
    (hbound : ppos.toNat + buf.length ≤ 2 ^ 63) :
    (vtfs_write_node node ppos buf copyCap false).ret =
      (if copyCap = 0 then .error .EFAULT else .ok copyCap) ∧
    (vtfs_write_node node ppos buf copyCap false).pos = ppos + copyCap ∧
    (vtfs_write_node node ppos buf copyCap false).node.size =
      max node.size (ppos.toNat + copyCap) := by
  obtain ⟨node1, d1, hgs, hd1, hlen1, hende, hsz1, hdir1, hcaple, hpre1, hzero1, hgrowc, hnoc⟩ :=
    growStep_spec node (ppos.toNat + buf.length) hwf (by omega) hbound
  have hneg : ¬ ppos < 0 := not_lt.mpr hpos
  have hlenne : ¬ buf.length = 0 := by omega
  have hsm : (2:Nat) ^ 63 < SIZE_MAX := by decide
  have hpmax : ¬ ppos.toNat > SIZE_MAX := by omega
  have hlenmax : ¬ buf.length > SIZE_MAX - ppos.toNat := by omega
  obtain ⟨node2, hn2eq, hsz2⟩ :
      ∃ node2,
        (if ppos.toNat > node1.size then
          setBytes node1 node1.size (List.replicate (ppos.toNat - node1.size) 0)
         else node1) = node2 ∧ node2.size = node.size := by
    by_cases hgap : ppos.toNat > node1.size
    · exact ⟨_, if_pos hgap, by simp [setBytes, hsz1]⟩
    · exact ⟨node1, if_neg hgap, hsz1⟩
  have hred : vtfs_write_node node ppos buf copyCap false =
      ⟨if copyCap = 0 then .error .EFAULT else .ok copyCap,
        if ppos.toNat + copyCap >
            (setBytes node2 ppos.toNat
              (buf.take copyCap ++ List.replicate (buf.length - copyCap) 0)).size
        then { setBytes node2 ppos.toNat
                (buf.take copyCap ++ List.replicate (buf.length - copyCap) 0)
               with size := ppos.toNat + copyCap }
        else setBytes node2 ppos.toNat
              (buf.take copyCap ++ List.replicate (buf.length - copyCap) 0),
        ppos + copyCap⟩ := by
    unfold vtfs_write_node
    simp only [hdir, Bool.false_eq_true, if_false, hneg, hlenne, hpmax, hlenmax,
      hgs, Nat.min_eq_right (Nat.le_of_lt hshort), hshort, if_true]
    rw [hn2eq]
  rw [hred]
  refine ⟨rfl, rfl, ?_⟩
  show (if ppos.toNat + copyCap > node2.size
        then { setBytes node2 ppos.toNat
                (buf.take copyCap ++ List.replicate (buf.length - copyCap) 0)
               with size := ppos.toNat + copyCap }
        else setBytes node2 ppos.toNat
              (buf.take copyCap ++ List.replicate (buf.length - copyCap) 0)).size =
    max node.size (ppos.toNat + copyCap)
  by_cases hs4 : ppos.toNat + copyCap > node2.size
  · rw [if_pos hs4]
    show ppos.toNat + copyCap = max node.size (ppos.toNat + copyCap)
    omega
  · rw [if_neg hs4]
    show node2.size = max node.size (ppos.toNat + copyCap)
    omega

/-- When the growth block fails, the write returns `-EFBIG` and leaves
the node and position untouched. -/
theorem vtfs_write_node_overflow (node : NodeRec) (ppos : Int) (buf : List Nat) (copyCap : Nat)
    (hdir : node.isDir = false) (hpos : 0 ≤ ppos) (hlenne : ¬ buf.length = 0)
    (hpmax : ppos.toNat ≤ SIZE_MAX) (hlenmax : buf.length ≤ SIZE_MAX - ppos.toNat)
    (hgrow : growStep node (ppos.toNat + buf.length) = none) :
    vtfs_write_node node ppos buf copyCap false = ⟨.error .EFBIG, node, ppos⟩ := by
  have hneg : ¬ ppos < 0 := not_lt.mpr hpos
  have hpmax' : ¬ ppos.toNat > SIZE_MAX := by omega
  have hlenmax' : ¬ buf.length > SIZE_MAX - ppos.toNat := by omega
  unfold vtfs_write_node
  simp only [hdir, Bool.false_eq_true, if_false, hneg, hlenne, hpmax', hlenmax', hgrow]

/-- The growth block fails exactly when growth is needed and the
doubling loop fails. -/
theorem growStep_none_iff (node : NodeRec) (e : Nat) :
    growStep node e = none ↔
      (node.capacity < e ∧
        growLoopF (if node.capacity = 0 then PAGE_SIZE else node.capacity) e GROW_FUEL
          = none) := by
  unfold growStep
  by_cases hc : e > node.capacity
  · simp only [hc, if_true]
    cases hF : growLoopF (if node.capacity = 0 then PAGE_SIZE else node.capacity) e GROW_FUEL with
    | none => simp [hc]
    | some nc => simp [hc]
  · simp only [hc, if_false]
    constructor
    · intro h
      simp at h
    · intro ⟨h1, _⟩
      exact h1.elim

/-- Writing strictly beyond the current size: the write succeeds, the
new size is `offset + len`, and reading the gap between the old size
and the offset returns zero bytes. -/
theorem write_gap_read (node : NodeRec) (ppos : Int) (buf : List Nat) (copyCap : Nat)
    (hdir : node.isDir = false) (hpos : 0 ≤ ppos) (hwf : BufWf node)
    (hgap : node.size < ppos.toNat) (hlen : 0 < buf.length) (hcap : buf.length ≤ copyCap)
    (hbound : ppos.toNat + buf.length ≤ 2 ^ 63) :
    (vtfs_write_node node ppos buf copyCap false).ret = .ok buf.length ∧
    (vtfs_write_node node ppos buf copyCap false).node.size = ppos.toNat + buf.length ∧
    vtfs_read_node (vtfs_write_node node ppos buf copyCap false).node
        (node.size : Int) (ppos.toNat - node.size) =
      .ok (List.replicate (ppos.toNat - node.size) 0,
           (node.size : Int) + (ppos.toNat - node.size : Nat)) := by
  obtain ⟨nodeW, dW, hmain, hdirW, hszW, hdataW, hlenW, hcapW, hextract,
      hpre, hgapz, hbeyond, hgrow, hnoc⟩ :=
    vtfs_write_node_full node ppos buf copyCap hdir hpos hwf hlen hcap hbound
  rw [hmain]
  have hszW' : nodeW.size = ppos.toNat + buf.length := by omega
  refine ⟨rfl, hszW', ?_⟩
  show vtfs_read_node nodeW (node.size : Int) (ppos.toNat - node.size) = _
  unfold vtfs_read_node
  have hneg : ¬ (node.size : Int) < 0 := by omega
  have htn : (node.size : Int).toNat = node.size := Int.toNat_natCast _
  have hnotEOF : ¬ node.size ≥ nodeW.size := by omega
  have hmin : min (nodeW.size - node.size) (ppos.toNat - node.size) =
      ppos.toNat - node.size := by omega
  have hne0 : ¬ ppos.toNat - node.size = 0 := by omega
  have hlist : (dW.drop node.size).take (ppos.toNat - node.size) =
      List.replicate (ppos.toNat - node.size) 0 := by
    apply List.ext_getElem?
    intro n
    by_cases hn : n < ppos.toNat - node.size
    · rw [List.getElem?_take_of_lt hn, List.getElem?_drop]
      rw [hgapz (node.size + n) (by omega) (by omega)]
      rw [List.getElem?_replicate]
      rw [if_pos hn]
    · rw [List.getElem?_eq_none (by simp; omega), List.getElem?_eq_none (by simp; omega)]
  rw [hdataW]
  simp only [hdirW, Bool.false_eq_true, if_false, hneg, htn, hmin, hnotEOF, hne0, hlist]

/-! ## Node allocation and tree operations (`vtfs_inode.c`) -/

/-- `vtfs_alloc_node` (`vtfs_inode.c:3`): `kzalloc` a record, apply the
default type bits when the caller passed none, and `strscpy` the name
into the 255-byte array (so at most 254 bytes are kept). -/
def vtfs_alloc_node (name : List Nat) (is_dir : Bool) (mode : Nat) : NodeRec :=
  let inode_mode := if mode &&& S_IFMT = 0
    then mode ||| (if is_dir then S_IFDIR else S_IFREG) else mode
  { name := name.take (VTFS_FILE_NAME_LEN - 1)
    ino := 0
    isDir := is_dir
    mode := inode_mode
    parent := none
    firstChild := none
    nextSibling := none
    linkTarget := none
    data := none
    size := 0
    capacity := 0 }

/-- The sibling chain starting at `start` visits exactly the addresses
and records of `cs`, in order. -/
def isChain (h : Heap) : Option Nat → List (Nat × NodeRec) → Prop
  | start, [] => start = none
  | start, (a, r) :: rest => start = some a ∧ h a = some r ∧ isChain h r.nextSibling rest

instance instDecIsChain (h : Heap) (start : Option Nat) (cs : List (Nat × NodeRec)) :
    Decidable (isChain h start cs) :=
  match cs with
  | [] => inferInstanceAs (Decidable (start = none))
  | (a, r) :: rest =>
    have : Decidable (isChain h r.nextSibling rest) := instDecIsChain h r.nextSibling rest
    inferInstanceAs (Decidable (start = some a ∧ h a = some r ∧ isChain h r.nextSibling rest))

theorem isChain_nil (h : Heap) (start : Option Nat) : isChain h start [] ↔ start = none :=
  Iff.rfl

theorem isChain_cons (h : Heap) (start : Option Nat) (a : Nat) (r : NodeRec)
    (rest : List (Nat × NodeRec)) :
    isChain h start ((a, r) :: rest) ↔
      start = some a ∧ h a = some r ∧ isChain h r.nextSibling rest :=
  Iff.rfl

/-- A chain is preserved by any heap change that leaves its nodes
untouched. -/
theorem isChain_mono (h h' : Heap) (start : Option Nat) (cs : List (Nat × NodeRec))
    (hc : isChain h start cs) (hagree : ∀ p ∈ cs, h' p.1 = h p.1) :
    isChain h' start cs := by
  induction cs generalizing start with
  | nil => exact hc
  | cons p rest ih =>
    obtain ⟨a, r⟩ := p
    obtain ⟨h1, h2, h3⟩ := hc
    refine ⟨h1, ?_, ?_⟩
    · rw [hagree (a, r) (by simp)]
      exact h2
    · exact ih r.nextSibling h3 (fun q hq => hagree q (by simp [hq]))

/-- Every address on a chain is allocated. -/
theorem isChain_mem_alloc (h : Heap) (start : Option Nat) (cs : List (Nat × NodeRec))
    (hc : isChain h start cs) : ∀ p ∈ cs, h p.1 = some p.2 := by
  induction cs generalizing start with
  | nil => simp
  | cons p rest ih =>
    obtain ⟨a, r⟩ := p
    obtain ⟨h1, h2, h3⟩ := hc
    intro q hq
    rcases List.mem_cons.mp hq with hq | hq
    · subst hq; exact h2
    · exact ih r.nextSibling h3 q hq

/-- The name-collision scan at the top of `vtfs_mkdir`
(`vtfs_inode.c:169`): `strcmp(cur->name, name) == 0` on each child. -/
def nameScan (h : Heap) : Option Nat → List Nat → Nat → Option Bool
  | _, _, 0 => none
  | none, _, _ + 1 => some false
  | some c, name, fuel + 1 =>
    match h c with
    | none => none
    | some rc =>
      if rc.name = name then some true
      else nameScan h rc.nextSibling name fuel

/-- The scan of `vtfs_lookup` (`vtfs_inode.c:43`): first child whose
stored name matches. -/
def lookupScan (h : Heap) : Option Nat → List Nat → Nat → Option (Option Nat)
  | _, _, 0 => none
  | none, _, _ + 1 => some none
  | some c, name, fuel + 1 =>
    match h c with
    | none => none
    | some rc =>
      if rc.name = name then some (some c)
      else lookupScan h rc.nextSibling name fuel

/-- `vtfs_lookup` (`vtfs_inode.c:27`): returns the resolved child
address, or `none` for a negative entry (`d_add(dentry, NULL)`). -/
def vtfs_lookup (h : Heap) (parentAddr : Nat) (name : List Nat) (fuel : Nat) :
    Option (Option Nat) :=
  match h parentAddr with
  | none => some none
  | some parent => lookupScan h parent.firstChild name fuel

/-- `vtfs_create` (`vtfs_inode.c:104`).  `newAddr` is the fresh address
`kzalloc` returns, `allocOk`/`inodeOk` tell whether `kzalloc` and
`vtfs_get_inode` succeed.  Returns (result, heap, next_ino). -/
def vtfs_create (h : Heap) (nextIno : Nat) (parentAddr : Nat) (name : List Nat) (mode : Nat)
    (newAddr : Nat) (allocOk inodeOk : Bool) : Except Err Nat × Heap × Nat :=
  match h parentAddr with
  | none => (.error .EINVAL, h, nextIno)
  | some parent =>
    if allocOk = false then (.error .ENOMEM, h, nextIno)
    else
      let node1 := { vtfs_alloc_node name false mode with
                     ino := nextIno, parent := some parentAddr,
                     nextSibling := parent.firstChild }
      let h1 := hset h newAddr node1
      let h2 := hset h1 parentAddr { parent with firstChild := some newAddr }
      if inodeOk = false then
        -- parent_node->first_child = node->next_sibling; kfree(node)
        let h3 := hset h2 parentAddr { parent with firstChild := node1.nextSibling }
        (.error .ENOMEM, hfree h3 newAddr, nextIno + 1)
      else (.ok newAddr, h2, nextIno + 1)

/-- `vtfs_mkdir` (`vtfs_inode.c:150`): scan for a name collision first,
then allocate, insert at the head, and undo the insertion if the inode
cannot be obtained. -/
def vtfs_mkdir (h : Heap) (nextIno : Nat) (parentAddr : Nat) (name : List Nat) (mode : Nat)
    (newAddr : Nat) (allocOk inodeOk : Bool) (fuel : Nat) :
    Option (Except Err Nat × Heap × Nat) :=
  match h parentAddr with
  | none => some (.error .EINVAL, h, nextIno)
  | some parent =>
    match nameScan h parent.firstChild name fuel with
    | none => none
    | some true => some (.error .EEXIST, h, nextIno)
    | some false =>
      let mode1 := if mode &&& S_IFMT = 0 then mode ||| S_IFDIR else mode
      if allocOk = false then some (.error .ENOMEM, h, nextIno)
      else
        let node1 := { vtfs_alloc_node name true mode1 with
                       ino := nextIno, parent := some parentAddr,
                       nextSibling := parent.firstChild }
        let h1 := hset h newAddr node1
        let h2 := hset h1 parentAddr { parent with firstChild := some newAddr }
        if inodeOk = false then
          let h3 := hset h2 parentAddr { parent with firstChild := node1.nextSibling }
          some (.error .ENOMEM, hfree h3 newAddr, nextIno + 1)
        else some (.ok newAddr, h2, nextIno + 1)

/-- The scan-and-detach loop of `vtfs_unlink` (`vtfs_inode.c:76`):
walks `cur`, comparing each child to the target by address identity;
on a hit it splices the target out of the chain (updating either the
previous sibling or the parent's `first_child`) and clears the
target's `parent` and `next_sibling` links. -/
def unlinkLoop (h : Heap) (parentAddr : Nat) (prev cur : Option Nat) (target : Nat) :
    Nat → Option (Heap × Bool)
  | 0 => none
  | fuel + 1 =>
    match cur with
    | none => some (h, false)
    | some c =>
      match h c with
      | none => none
      | some rc =>
        if c = target then
          let h1? : Option Heap :=
            match prev with
            | some pv =>
              match h pv with
              | none => none
              | some rpv => some (hset h pv { rpv with nextSibling := rc.nextSibling })
            | none =>
              match h parentAddr with
              | none => none
              | some rp => some (hset h parentAddr { rp with firstChild := rc.nextSibling })
          match h1? with
          | none => none
          | some h1 =>
            match h1 target with
            | none => none
            | some rt =>
              some (hset h1 target { rt with parent := none, nextSibling := none }, true)
        else unlinkLoop h parentAddr (some c) rc.nextSibling target fuel

/-- `vtfs_unlink` (`vtfs_inode.c:58`): `-EISDIR` for directories,
detach by identity, `-ENOENT` when the node is not under this parent.
The `clear_nlink`/`mark_inode_dirty` calls touch only VFS inode state
and the node is NOT freed. -/
def vtfs_unlink (h : Heap) (parentAddr nodeAddr : Nat) (fuel : Nat) :
    Option (Except Err Unit × Heap) :=
  match h parentAddr, h nodeAddr with
  | none, _ => some (.error .EINVAL, h)
  | some _, none => some (.error .EINVAL, h)
  | some parent, some node =>
    if node.isDir then some (.error .EISDIR, h)
    else
      match unlinkLoop h parentAddr none parent.firstChild nodeAddr fuel with
      | none => none
      | some (h', true) => some (.ok (), h')
      | some (h', false) => some (.error .ENOENT, h')

/-- `vtfs_data_node` (`vtfs_file.c:3`) lifted to the heap: resolve a
node address to the address of its data owner. -/
def vtfs_data_node (h : Heap) (a : Nat) : Nat :=
  match h a with
  | some r => match r.linkTarget with
              | some t => t
              | none => a
  | none => a

/-- `vtfs_link` (`vtfs_inode.c:262`): refuse directories, resolve the
true data owner, allocate the alias node sharing `ino`/`mode`, point
its `link_target` at the owner and insert it at the head of the
parent's children. -/
def vtfs_link (h : Heap) (parentAddr oldAddr : Nat) (name : List Nat) (newAddr : Nat)
    (allocOk : Bool) : Except Err Nat × Heap :=
  match h oldAddr, h parentAddr with
  | none, _ => (.error .EINVAL, h)
  | some _, none => (.error .EINVAL, h)
  | some oldr, some parent =>
    if oldr.mode &&& S_IFMT = S_IFDIR then (.error .EPERM, h)
    else
      let dataAddr := match oldr.linkTarget with
                      | some t => t
                      | none => oldAddr
      if allocOk = false then (.error .ENOMEM, h)
      else
        let newNode : NodeRec :=
          { name := name.take (VTFS_FILE_NAME_LEN - 1)
            ino := oldr.ino
            isDir := false
            mode := oldr.mode
            parent := some parentAddr
            firstChild := none
            nextSibling := parent.firstChild
            linkTarget := some dataAddr
            data := none
            size := 0
            capacity := 0 }
        let h1 := hset h newAddr newNode
        let h2 := hset h1 parentAddr { parent with firstChild := some newAddr }
        (.ok newAddr, h2)

/-- `vtfs_read` (`vtfs_file.c:8`) at the heap level: resolve the data
node, then read its buffer. -/
def vtfs_read (h : Heap) (a : Nat) (ppos : Int) (len : Nat) : Except Err (List Nat × Int) :=
  match h (vtfs_data_node h a) with
  | none => .error Err.EIO
  | some node => vtfs_read_node node ppos len

/-- `vtfs_write` (`vtfs_file.c:67`) at the heap level: resolve the data
node, write its buffer, and store the updated record back. -/
def vtfs_write (h : Heap) (a : Nat) (ppos : Int) (buf : List Nat) (copyCap : Nat)
    (append : Bool) : Except Err Nat × Heap × Int :=
  match h (vtfs_data_node h a) with
  | none => (.error Err.EIO, h, ppos)
  | some node =>
    let R := vtfs_write_node node ppos buf copyCap append
    (R.ret, hset h (vtfs_data_node h a) R.node, R.pos)

/-! ## Directory iteration (`vtfs_dir.c`) -/

/-- One emitted directory entry: name bytes, inode number, and whether
`dtype` is `DT_DIR`. -/
structure DirEntry where
  name : List Nat
  ino : Nat
  isDir : Bool
deriving DecidableEq, Repr

/-- `dir_emit_dots`: emit `.` and `..` while `pos < 2`, consuming
consumer budget; returns (entries, new pos, remaining budget, success). -/
def dir_emit_dots (selfIno parentIno pos budget : Nat) :
    List DirEntry × Nat × Nat × Bool :=
  if pos = 0 then
    if budget = 0 then ([], 0, 0, false)
    else if budget = 1 then ([⟨[46], selfIno, true⟩], 1, 0, false)
    else ([⟨[46], selfIno, true⟩, ⟨[46, 46], parentIno, true⟩], 2, budget - 2, true)
  else if pos = 1 then
    if budget = 0 then ([], 1, 0, false)
    else ([⟨[46, 46], parentIno, true⟩], 2, budget - 1, true)
  else ([], pos, budget, true)

/-- The skip loop of `vtfs_iterate` (`vtfs_dir.c:25`):
`while (child && idx > 0) { child = child->next_sibling; idx--; }`. -/
def skipChildren (h : Heap) : Option Nat → Nat → Nat → Option (Option Nat)
  | _, _, 0 => none
  | none, _, _ + 1 => some none
  | some c, idx, fuel + 1 =>
    if idx = 0 then some (some c)
    else
      match h c with
      | none => none
      | some rc => skipChildren h rc.nextSibling (idx - 1) fuel

/-- The emit loop of `vtfs_iterate` (`vtfs_dir.c:31`): emit each child
as (name up to `strnlen(name, VTFS_FILE_NAME_LEN)`, ino, dtype),
advancing `ctx->pos` by one per entry, until the consumer stops
accepting (`dir_emit` returns false) or the chain ends. -/
def emitChildren (h : Heap) : Option Nat → Nat → Nat → Nat → Option (List DirEntry × Nat)
  | _, _, _, 0 => none
  | none, pos, _, _ + 1 => some ([], pos)
  | some c, pos, budget, fuel + 1 =>
    match h c with
    | none => none
    | some rc =>
      if budget = 0 then some ([], pos)
      else
        match emitChildren h rc.nextSibling (pos + 1) (budget - 1) fuel with
        | none => none
        | some (es, pos') =>
          some (⟨rc.name.take VTFS_FILE_NAME_LEN, rc.ino, rc.isDir⟩ :: es, pos')

/-- `vtfs_iterate` (`vtfs_dir.c:3`).  `inodeMode`, `selfIno` and
`parentIno` are the VFS-inode values the host passes alongside the
directory node; `pos` is `ctx->pos`, `budget` how many entries the
consumer still accepts.  `uint idx = pos - 2` truncates to 32 bits. -/
def vtfs_iterate (h : Heap) (dirAddr : Nat) (inodeMode selfIno parentIno : Nat)
    (pos budget fuel : Nat) : Option (Except Err (List DirEntry × Nat)) :=
  if inodeMode &&& S_IFMT = S_IFDIR then
    match h dirAddr with
    | none => some (.error .EINVAL)
    | some dirNode =>
      match dir_emit_dots selfIno parentIno pos budget with
      | (dots, pos1, budget1, ok) =>
        if ok then
          let idx := (pos1 - 2) % 2 ^ 32
          match skipChildren h dirNode.firstChild idx fuel with
          | none => none
          | some cur =>
            match emitChildren h cur pos1 budget1 fuel with
            | none => none
            | some (es, pos2) => some (.ok (dots ++ es, pos2))
        else some (.ok (dots, pos1))
  else some (.error .ENOTDIR)

theorem hset_eq_update (h : Heap) (a : Nat) (r : NodeRec) (b : Nat) :
    hset h a r b = if b = a then some r else h b := rfl

/-! ## Chain-walk characterizations -/

theorem nameScan_not_found (h : Heap) (name : List Nat) :
    ∀ (cs : List (Nat × NodeRec)) (start : Option Nat) (fuel : Nat),
      isChain h start cs → cs.length < fuel →
      (∀ p ∈ cs, p.2.name ≠ name) →
      nameScan h start name fuel = some false := by
  intro cs
  induction cs with
  | nil =>
    intro start fuel hc hfuel _
    rw [hc]
    cases fuel with
    | zero => omega
    | succ fuel => rfl
  | cons p rest ih =>
    obtain ⟨a, r⟩ := p
    intro start fuel hc hfuel hnone
    obtain ⟨h1, h2, h3⟩ := hc
    subst h1
    cases fuel with
    | zero => simp at hfuel
    | succ fuel =>
      unfold nameScan
      rw [h2]
      have hne : ¬ r.name = name := hnone (a, r) (by simp)
      simp only [hne, if_false]
      exact ih r.nextSibling fuel h3 (by simp at hfuel ⊢; omega)
        (fun q hq => hnone q (by simp [hq]))

theorem nameScan_found (h : Heap) (name : List Nat) :
    ∀ (cs : List (Nat × NodeRec)) (start : Option Nat) (fuel : Nat),
      isChain h start cs → cs.length < fuel →
      (∃ p ∈ cs, p.2.name = name) →
      nameScan h start name fuel = some true := by
  intro cs
  induction cs with
  | nil =>
    intro start fuel _ _ hmem
    simp at hmem
  | cons p rest ih =>
    obtain ⟨a, r⟩ := p
    intro start fuel hc hfuel hmem
    obtain ⟨h1, h2, h3⟩ := hc
    subst h1
    cases fuel with
    | zero => simp at hfuel
    | succ fuel =>
      unfold nameScan
      rw [h2]
      by_cases hname : r.name = name
      · simp [hname]
      · simp only [hname, if_false]
        apply ih r.nextSibling fuel h3 (by simp at hfuel ⊢; omega)
        obtain ⟨q, hq, hqname⟩ := hmem
        rcases List.mem_cons.mp hq with hq | hq
        · subst hq; simp at hqname; exact absurd hqname hname
        · exact ⟨q, hq, hqname⟩

/-- A head child with a matching name is what `vtfs_lookup` returns. -/
theorem lookupScan_head (h : Heap) (name : List Nat) (a : Nat) (r : NodeRec)
    (fuel : Nat) (hf : 0 < fuel) (ha : h a = some r) (hname : r.name = name) :
    lookupScan h (some a) name fuel = some (some a) := by
  cases fuel with
  | zero => omega
  | succ fuel =>
    unfold lookupScan
    rw [ha]
    simp [hname]

/-- Splitting a chain list at the first occurrence of an address. -/
theorem mem_fst_split (t : Nat) :
    ∀ (cs : List (Nat × NodeRec)), t ∈ cs.map Prod.fst →
      ∃ l1 rn l2, cs = l1 ++ (t, rn) :: l2 ∧ t ∉ l1.map Prod.fst := by
  intro cs
  induction cs with
  | nil => simp
  | cons p rest ih =>
    obtain ⟨a, r⟩ := p
    intro hmem
    by_cases hat : a = t
    · subst hat
      exact ⟨[], r, rest, rfl, by simp⟩
    · have : t ∈ rest.map Prod.fst := by
        simp at hmem
        rcases hmem with h | h
        · exact absurd h.symm hat
        · simpa using h
      obtain ⟨l1, rn, l2, heq, hnot⟩ := ih this
      exact ⟨(a, r) :: l1, rn, l2, by rw [heq]; rfl, by simp [hnot]; omega⟩

/-- The unlink scan finds nothing when the target is not on the chain:
the heap is untouched. -/
theorem unlinkLoop_not_found (h : Heap) (pa target : Nat) :
    ∀ (cs : List (Nat × NodeRec)) (prev cur : Option Nat) (fuel : Nat),
      isChain h cur cs → cs.length < fuel →
      (∀ p ∈ cs, p.1 ≠ target) →
      unlinkLoop h pa prev cur target fuel = some (h, false) := by
  intro cs
  induction cs with
  | nil =>
    intro prev cur fuel hc hfuel _
    rw [hc]
    cases fuel with
    | zero => omega
    | succ fuel => rfl
  | cons p rest ih =>
    obtain ⟨a, r⟩ := p
    intro prev cur fuel hc hfuel hnot
    obtain ⟨h1, h2, h3⟩ := hc
    subst h1
    cases fuel with
    | zero => simp at hfuel
    | succ fuel =>
      unfold unlinkLoop
      simp only [h2]
      have hne : ¬ a = target := hnot (a, r) (by simp)
      simp only [hne, if_false]
      exact ih (some a) r.nextSibling fuel h3 (by simp at hfuel ⊢; omega)
        (fun q hq => hnot q (by simp [hq]))

/-- The unlink scan with the target somewhere after the scan position:
the previous sibling `pv` gets its `next_sibling` redirected past the
target, the target's links are cleared, nothing else changes, and the
chain hanging off `pv` now spells the old addresses minus the target. -/
theorem unlinkLoop_found_inner (h : Heap) (pa target : Nat) (rn : NodeRec)
    (l2 : List (Nat × NodeRec)) :
    ∀ (l1 : List (Nat × NodeRec)) (pv : Nat) (rpv : NodeRec) (cur : Option Nat) (fuel : Nat),
      l1.length < fuel →
      h pv = some rpv →
      rpv.nextSibling = cur →
      isChain h cur (l1 ++ (target, rn) :: l2) →
      target ∉ l1.map Prod.fst →
      pv ∉ l1.map Prod.fst →
      target ≠ pv →
      (l1.map Prod.fst).Nodup →
      (∀ p ∈ l2, p.1 ≠ target ∧ p.1 ≠ pv ∧ p.1 ∉ l1.map Prod.fst) →
      ∃ h2,
        unlinkLoop h pa (some pv) cur target fuel = some (h2, true) ∧
        h2 target = some { rn with parent := none, nextSibling := none } ∧
        (∀ b, b ≠ target → b ∉ pv :: l1.map Prod.fst → h2 b = h b) ∧
        ∃ rpv2 ch, h2 pv = some rpv2 ∧ isChain h2 rpv2.nextSibling ch ∧
          ch.map Prod.fst = l1.map Prod.fst ++ l2.map Prod.fst := by
  intro l1
  induction l1 with
  | nil =>
    intro pv rpv cur fuel hfuel hpv hnext hc hl1t hl1pv htpv hnd hl2
    obtain ⟨h1, h2, h3⟩ := hc
    subst h1
    cases fuel with
    | zero => omega
    | succ fuel =>
      refine ⟨hset (hset h pv { rpv with nextSibling := rn.nextSibling }) target
          { rn with parent := none, nextSibling := none }, ?_, ?_, ?_, ?_⟩
      · have htar : hset h pv { rpv with nextSibling := rn.nextSibling } target = some rn := by
          rw [hset_other _ _ _ _ htpv]
          exact h2
        unfold unlinkLoop
        simp only [h2, hpv, htar, eq_self_iff_true, if_true]
      · simp
      · intro b hbt hbpv
        simp at hbpv
        rw [hset_other _ _ _ _ hbt, hset_other _ _ _ _ hbpv]
      · refine ⟨{ rpv with nextSibling := rn.nextSibling }, l2, ?_, ?_, by simp⟩
        · rw [hset_other _ _ _ _ (Ne.symm htpv)]
          simp
        · show isChain _ rn.nextSibling l2
          apply isChain_mono h _ _ _ h3
          intro q hq
          obtain ⟨hq1, hq2, _⟩ := hl2 q hq
          rw [hset_other _ _ _ _ hq1, hset_other _ _ _ _ hq2]
  | cons p l1' ih =>
    obtain ⟨a, ra⟩ := p
    intro pv rpv cur fuel hfuel hpv hnext hc hl1t hl1pv htpv hnd hl2
    obtain ⟨h1, h2, h3⟩ := hc
    subst h1
    cases fuel with
    | zero => simp at hfuel
    | succ fuel =>
      have hat : ¬ a = target := by
        intro hh
        exact hl1t (by simp [hh])
      have hapv : ¬ a = pv := by
        intro hh
        exact hl1pv (by simp [hh])
      have hnd' : (a :: l1'.map Prod.fst).Nodup := by simpa using hnd
      have hanotin : a ∉ l1'.map Prod.fst := (List.nodup_cons.mp hnd').1
      have hndl1' : (l1'.map Prod.fst).Nodup := (List.nodup_cons.mp hnd').2
      have htl1' : target ∉ l1'.map Prod.fst := by
        intro hm
        exact hl1t (by simp [hm])
      have hpvl1' : pv ∉ l1'.map Prod.fst := by
        intro hm
        exact hl1pv (by simp [hm])
      have hl2' : ∀ p ∈ l2, p.1 ≠ target ∧ p.1 ≠ a ∧ p.1 ∉ l1'.map Prod.fst := by
        intro q hq
        obtain ⟨q1, q2, q3⟩ := hl2 q hq
        refine ⟨q1, ?_, ?_⟩
        · intro hqa
          exact q3 (by simp [hqa])
        · intro hm
          exact q3 (by simp [hm])
      obtain ⟨h2', heq, htar, hframe, rpv2, ch, hpv2, hch, hchmap⟩ :=
        ih a ra ra.nextSibling fuel (by simp at hfuel ⊢; omega) h2 rfl h3
          htl1' hanotin (fun hh => hat hh.symm) hndl1' hl2'
      refine ⟨h2', ?_, htar, ?_, ?_⟩
      · unfold unlinkLoop
        simp only [h2, hat, if_false]
        exact heq
      · intro b hbt hbin
        simp only [List.mem_cons, List.map_cons] at hbin
        push_neg at hbin
        obtain ⟨hbpv, hba, hbl1⟩ := hbin
        refine hframe b hbt ?_
        intro hm
        rcases List.mem_cons.mp hm with hm | hm
        · exact hba hm
        · exact hbl1 hm
      · have hpvun : h2' pv = h pv := by
          apply hframe pv (fun hh => htpv hh.symm)
          intro hm
          rcases List.mem_cons.mp hm with hm | hm
          · exact hapv hm.symm
          · exact hpvl1' hm
        refine ⟨rpv, (a, rpv2) :: ch, by rw [hpvun]; exact hpv, ?_, ?_⟩
        · rw [hnext]
          exact ⟨rfl, hpv2, hch⟩
        · simp [hchmap]

/-- The unlink scan with the target as the first child: the parent's
`first_child` is redirected past the target. -/
theorem unlinkLoop_found_head (h : Heap) (pa target : Nat) (rp rn : NodeRec)
    (l2 : List (Nat × NodeRec)) (cur : Option Nat) (fuel : Nat)
    (hfuel : 0 < fuel)
    (hpa : h pa = some rp)
    (hc : isChain h cur ((target, rn) :: l2))
    (htpa : target ≠ pa)
    (hl2 : ∀ p ∈ l2, p.1 ≠ target ∧ p.1 ≠ pa) :
    ∃ h2,
      unlinkLoop h pa none cur target fuel = some (h2, true) ∧
      h2 target = some { rn with parent := none, nextSibling := none } ∧
      (∀ b, b ≠ target → b ≠ pa → h2 b = h b) ∧
      ∃ rp2 ch, h2 pa = some rp2 ∧ rp2.firstChild = rn.nextSibling ∧
        isChain h2 rp2.firstChild ch ∧ ch.map Prod.fst = l2.map Prod.fst := by
  obtain ⟨h1, h2, h3⟩ := hc
  subst h1
  cases fuel with
  | zero => omega
  | succ fuel =>
    have htar : hset h pa { rp with firstChild := rn.nextSibling } target = some rn := by
      rw [hset_other _ _ _ _ htpa]
      exact h2
    refine ⟨hset (hset h pa { rp with firstChild := rn.nextSibling }) target
        { rn with parent := none, nextSibling := none }, ?_, ?_, ?_, ?_⟩
    · unfold unlinkLoop
      simp only [h2, hpa, htar, eq_self_iff_true, if_true]
    · simp
    · intro b hbt hbpa
      rw [hset_other _ _ _ _ hbt, hset_other _ _ _ _ hbpa]
    · refine ⟨{ rp with firstChild := rn.nextSibling }, l2, ?_, rfl, ?_, rfl⟩
      · rw [hset_other _ _ _ _ (Ne.symm htpa)]
        simp
      · show isChain _ rn.nextSibling l2
        apply isChain_mono h _ _ _ h3
        intro q hq
        obtain ⟨hq1, hq2⟩ := hl2 q hq
        rw [hset_other _ _ _ _ hq1, hset_other _ _ _ _ hq2]

/-- `(A ++ t :: B).erase t = A ++ B` when `t` is not in `A`. -/
theorem erase_middle (t : Nat) :
    ∀ (A : List Nat) (B : List Nat), t ∉ A → (A ++ t :: B).erase t = A ++ B := by
  intro A
  induction A with
  | nil =>
    intro B _
    simp
  | cons a A' ih =>
    intro B hA
    have hat : a ≠ t := by
      intro hh
      exact hA (by simp [hh])
    rw [List.cons_append, List.erase_cons_tail (by simpa using hat)]
    rw [ih B (by intro hm; exact hA (by simp [hm]))]
    rfl

/-- C6: full characterization of `vtfs_unlink` on a well-formed
directory: directories are refused with `-EISDIR`; the scan is by
address identity, returning `-ENOENT` (heap untouched) when the node
is not a child of this parent; on success the node is spliced out of
the sibling chain, its `parent`/`next_sibling` links are cleared, and
its memory is not released. -/
theorem vtfs_unlink_spec (h : Heap) (pa na : Nat) (parent node : NodeRec)
    (cs : List (Nat × NodeRec)) (fuel : Nat)
    (hpa : h pa = some parent)
    (hna : h na = some node)
    (hc : isChain h parent.firstChild cs)
    (hnd : (pa :: cs.map Prod.fst).Nodup)
    (hfuel : cs.length < fuel) :
    (node.isDir = true → vtfs_unlink h pa na fuel = some (.error .EISDIR, h)) ∧
    (node.isDir = false → na ∉ cs.map Prod.fst →
      vtfs_unlink h pa na fuel = some (.error .ENOENT, h)) ∧
    (node.isDir = false → na ∈ cs.map Prod.fst →
      ∃ h2, vtfs_unlink h pa na fuel = some (.ok (), h2) ∧
        h2 na = some { node with parent := none, nextSibling := none } ∧
        ∃ rp2 ch, h2 pa = some rp2 ∧ isChain h2 rp2.firstChild ch ∧
          ch.map Prod.fst = (cs.map Prod.fst).erase na) := by
  have hpan : pa ∉ cs.map Prod.fst := (List.nodup_cons.mp hnd).1
  have hcsnd : (cs.map Prod.fst).Nodup := (List.nodup_cons.mp hnd).2
  refine ⟨?_, ?_, ?_⟩
  · intro hdir
    unfold vtfs_unlink
    simp only [hpa, hna, hdir, if_true]
  · intro hdir hnot
    unfold vtfs_unlink
    simp only [hpa, hna, hdir, Bool.false_eq_true, if_false]
    rw [unlinkLoop_not_found h pa na cs none parent.firstChild fuel hc hfuel
      (fun p hp hh => hnot (hh ▸ List.mem_map_of_mem Prod.fst hp))]
  · intro hdir hmem
    obtain ⟨l1, rn, l2, hsplit, hnal1⟩ := mem_fst_split na cs hmem
    have hrn : rn = node := by
      have halloc := isChain_mem_alloc h parent.firstChild cs hc (na, rn)
        (by rw [hsplit]; simp)
      rw [hna] at halloc
      exact Option.some_inj.mp halloc.symm
    rw [hrn] at hsplit
    subst hsplit
    have hfst : ((l1 ++ (na, node) :: l2).map Prod.fst)
        = l1.map Prod.fst ++ na :: l2.map Prod.fst := by simp
    rw [hfst] at hcsnd hpan
    have hpal1 : pa ∉ l1.map Prod.fst := fun hm => hpan (by simp [hm])
    have hpal2 : pa ∉ l2.map Prod.fst := fun hm => hpan (by simp [hm])
    have hnapa : na ≠ pa := fun hh => hpan (by rw [← hh]; simp)
    obtain ⟨hl1nd, hndr, hdisj⟩ := List.nodup_append.mp hcsnd
    have hnal2 : na ∉ l2.map Prod.fst := (List.nodup_cons.mp hndr).1
    have hl2nd : (l2.map Prod.fst).Nodup := (List.nodup_cons.mp hndr).2
    have hl2side : ∀ p ∈ l2, p.1 ≠ na ∧ p.1 ≠ pa ∧ p.1 ∉ l1.map Prod.fst := by
      intro q hq
      have hqmem : q.1 ∈ l2.map Prod.fst := List.mem_map_of_mem Prod.fst hq
      refine ⟨fun hh => hnal2 (hh ▸ hqmem), fun hh => hpal2 (hh ▸ hqmem), ?_⟩
      intro hm
      exact (hdisj hm) (by simp [hqmem])
    cases l1 with
    | nil =>
      have hc' : isChain h parent.firstChild ((na, node) :: l2) := hc
      obtain ⟨h2, heq, htar, hframe, rp2, ch, hpa2, hfc2, hch, hchmap⟩ :=
        unlinkLoop_found_head h pa na parent node l2 parent.firstChild fuel
          (by omega) hpa hc' hnapa (fun p hp => ⟨(hl2side p hp).1, (hl2side p hp).2.1⟩)
      refine ⟨h2, ?_, htar, rp2, ch, hpa2, hch, ?_⟩
      · unfold vtfs_unlink
        simp only [hpa, hna, hdir, Bool.false_eq_true, if_false, heq]
      · rw [hchmap]
        simp
    | cons p0 l1' =>
      obtain ⟨a0, r0⟩ := p0
      obtain ⟨hstart, ha0, hrest⟩ := hc
      have hna0 : na ≠ a0 := by
        intro hh
        exact hnal1 (by simp [hh])
      have hl1nd' : (a0 :: l1'.map Prod.fst).Nodup := hl1nd
      have ha0l1' : a0 ∉ l1'.map Prod.fst := (List.nodup_cons.mp hl1nd').1
      have hl1'nd : (l1'.map Prod.fst).Nodup := (List.nodup_cons.mp hl1nd').2
      have hnal1' : na ∉ l1'.map Prod.fst := fun hm => hnal1 (by simp [hm])
      have hpaa0 : pa ≠ a0 := by
        intro hh
        exact hpal1 (by simp [hh])
      have hpal1' : pa ∉ l1'.map Prod.fst := fun hm => hpal1 (by simp [hm])
      cases fuel with
      | zero => simp at hfuel
      | succ fuel =>
        obtain ⟨h2, heq, htar, hframe, rpv2, ch, hpv2, hch, hchmap⟩ :=
          unlinkLoop_found_inner h pa na node l2 l1' a0 r0 r0.nextSibling fuel
            (by simp at hfuel; omega) ha0 rfl hrest hnal1' ha0l1' hna0 hl1'nd
            (by
              intro q hq
              obtain ⟨q1, q2, q3⟩ := hl2side q hq
              refine ⟨q1, fun hh => q3 (by simp [hh]), fun hm => q3 (by simp [hm])⟩)
        have hpa2 : h2 pa = some parent := by
          rw [hframe pa (Ne.symm hnapa) ?_]
          · exact hpa
          · intro hm
            rcases List.mem_cons.mp hm with hm | hm
            · exact hpaa0 hm
            · exact hpal1' hm
        refine ⟨h2, ?_, htar, parent, (a0, rpv2) :: ch, hpa2, ?_, ?_⟩
        · unfold vtfs_unlink
          simp only [hpa, hna, hdir, Bool.false_eq_true, if_false]
          unfold unlinkLoop
          simp only [hstart, ha0]
          have hne : ¬ a0 = na := fun hh => hna0 hh.symm
          simp only [hne, if_false, heq]
        · rw [hstart]
          exact ⟨rfl, hpv2, hch⟩
        · simp only [List.map_append, List.map_cons]
          rw [erase_middle na (a0 :: l1'.map Prod.fst) (l2.map Prod.fst)
            (by
              intro hm
              rcases List.mem_cons.mp hm with hm | hm
              · exact hna0 hm
              · exact hnal1' hm)]
          simp [hchmap]

/-! ## Iteration characterization -/

/-- The directory entry `vtfs_iterate` emits for a chain node. -/
def entryOf (p : Nat × NodeRec) : DirEntry :=
  ⟨p.2.name.take VTFS_FILE_NAME_LEN, p.2.ino, p.2.isDir⟩

theorem skipChildren_chain (h : Heap) :
    ∀ (cs : List (Nat × NodeRec)) (cur : Option Nat) (idx fuel : Nat),
      isChain h cur cs → cs.length < fuel →
      skipChildren h cur idx fuel = some ((cs.drop idx).head?.map Prod.fst) ∧
      isChain h ((cs.drop idx).head?.map Prod.fst) (cs.drop idx) := by
  intro cs
  induction cs with
  | nil =>
    intro cur idx fuel hc hfuel
    rw [hc]
    cases fuel with
    | zero => omega
    | succ fuel =>
      constructor
      · simp [skipChildren]
      · simp [isChain]
  | cons p rest ih =>
    obtain ⟨a, r⟩ := p
    intro cur idx fuel hc hfuel
    obtain ⟨h1, h2, h3⟩ := hc
    subst h1
    cases fuel with
    | zero => simp at hfuel
    | succ fuel =>
      cases idx with
      | zero =>
        constructor
        · simp [skipChildren]
        · exact ⟨rfl, h2, h3⟩
      | succ idx =>
        have hne : ¬ (idx + 1 = 0) := by omega
        constructor
        · unfold skipChildren
          simp only [hne, if_false, h2]
          have := (ih r.nextSibling idx fuel h3 (by simp at hfuel; omega)).1
          simpa using this
        · have := (ih r.nextSibling idx fuel h3 (by simp at hfuel; omega)).2
          simpa using this

theorem emitChildren_chain (h : Heap) :
    ∀ (cs : List (Nat × NodeRec)) (cur : Option Nat) (pos budget fuel : Nat),
      isChain h cur cs → cs.length < fuel →
      emitChildren h cur pos budget fuel =
        some ((cs.take budget).map entryOf, pos + min budget cs.length) := by
  intro cs
  induction cs with
  | nil =>
    intro cur pos budget fuel hc hfuel
    rw [hc]
    cases fuel with
    | zero => omega
    | succ fuel => simp [emitChildren]
  | cons p rest ih =>
    obtain ⟨a, r⟩ := p
    intro cur pos budget fuel hc hfuel
    obtain ⟨h1, h2, h3⟩ := hc
    subst h1
    cases fuel with
    | zero => simp at hfuel
    | succ fuel =>
      cases budget with
      | zero =>
        unfold emitChildren
        simp [h2]
      | succ budget =>
        have hne : ¬ (budget + 1 = 0) := by omega
        unfold emitChildren
        simp only [h2, hne, if_false, Nat.add_sub_cancel]
        rw [ih r.nextSibling (pos + 1) budget fuel h3 (by simp at hfuel; omega)]
        simp only [Option.some.injEq, Prod.mk.injEq, List.take_succ_cons, List.map_cons,
          entryOf, List.length_cons]
        exact ⟨trivial, by omega⟩

/-- `vtfs_iterate` started at cursor `n ≥ 2` emits the children from
index `n - 2` on, bounded by the consumer budget, and advances the
cursor by one per emitted entry. -/
theorem vtfs_iterate_at (h : Heap) (dirAddr : Nat) (dirNode : NodeRec)
    (cs : List (Nat × NodeRec)) (mode si pi n b fuel : Nat)
    (hmode : mode &&& S_IFMT = S_IFDIR)
    (hdir : h dirAddr = some dirNode)
    (hc : isChain h dirNode.firstChild cs)
    (hn : 2 ≤ n)
    (hidx : n - 2 < 2 ^ 32)
    (hfuel : cs.length < fuel) :
    vtfs_iterate h dirAddr mode si pi n b fuel =
      some (.ok (((cs.drop (n - 2)).take b).map entryOf,
                 n + min b (cs.drop (n - 2)).length)) := by
  have hn0 : ¬ n = 0 := by omega
  have hn1 : ¬ n = 1 := by omega
  have hdots : dir_emit_dots si pi n b = ([], n, b, true) := by
    unfold dir_emit_dots
    simp [hn0, hn1]
  have hmod : (n - 2) % 2 ^ 32 = n - 2 := Nat.mod_eq_of_lt hidx
  obtain ⟨hskip, hchd⟩ := skipChildren_chain h cs dirNode.firstChild (n - 2) fuel hc hfuel
  have hemit := emitChildren_chain h (cs.drop (n - 2))
    ((cs.drop (n - 2)).head?.map Prod.fst) n b fuel hchd
    (by have := List.length_drop (n - 2) cs; omega)
  unfold vtfs_iterate
  simp only [hmode, if_true, hdir, hdots, if_true, hmod, hskip, hemit]
  simp

/-- C7: resuming `vtfs_iterate` from a saved cursor, with no
intervening mutation, continues exactly where the previous call
stopped: the two calls together emit precisely what one uninterrupted
call emits, in order, with no duplicate and no missing entries. -/
theorem vtfs_iterate_resume_spec (h : Heap) (dirAddr : Nat) (dirNode : NodeRec)
    (cs : List (Nat × NodeRec)) (mode si pi n b1 b2 bigB fuel : Nat)
    (hmode : mode &&& S_IFMT = S_IFDIR)
    (hdir : h dirAddr = some dirNode)
    (hc : isChain h dirNode.firstChild cs)
    (hn : 2 ≤ n)
    (hidx : n - 2 + cs.length < 2 ^ 32)
    (hfuel : cs.length < fuel)
    (hb2 : (cs.drop (n - 2)).length ≤ b2)
    (hbig : (cs.drop (n - 2)).length ≤ bigB) :
    ∃ E1 E2 full p2,
      vtfs_iterate h dirAddr mode si pi n b1 fuel = some (.ok (E1, p2)) ∧
      p2 = n + E1.length ∧
      vtfs_iterate h dirAddr mode si pi p2 b2 fuel = some (.ok (E2, p2 + E2.length)) ∧
      vtfs_iterate h dirAddr mode si pi n bigB fuel = some (.ok (full, n + full.length)) ∧
      E1 ++ E2 = full := by
  have hA := vtfs_iterate_at h dirAddr dirNode cs mode si pi n b1 fuel hmode hdir hc hn
    (by omega) hfuel
  have hlenR : (cs.drop (n - 2)).length = cs.length - (n - 2) := List.length_drop _ _
  have hp2 : 2 ≤ n + min b1 (cs.drop (n - 2)).length := by omega
  have hp2idx : n + min b1 (cs.drop (n - 2)).length - 2 < 2 ^ 32 := by omega
  have hB := vtfs_iterate_at h dirAddr dirNode cs mode si pi
    (n + min b1 (cs.drop (n - 2)).length) b2 fuel hmode hdir hc hp2 hp2idx hfuel
  have hC := vtfs_iterate_at h dirAddr dirNode cs mode si pi n bigB fuel hmode hdir hc hn
    (by omega) hfuel
  have hdropnk : cs.drop (n + min b1 (cs.drop (n - 2)).length - 2) =
      (cs.drop (n - 2)).drop b1 := by
    have h1 : n + min b1 (cs.drop (n - 2)).length - 2 =
        (n - 2) + min b1 (cs.drop (n - 2)).length := by omega
    rw [h1, ← List.drop_drop]
    by_cases hble : b1 ≤ (cs.drop (n - 2)).length
    · rw [Nat.min_eq_left hble]
    · rw [Nat.min_eq_right (by omega)]
      rw [List.drop_length]
      exact (List.drop_eq_nil_of_le (by omega)).symm
  rw [hdropnk] at hB
  rw [List.take_of_length_le (by simp; omega)] at hB
  rw [List.take_of_length_le hbig] at hC
  refine ⟨((cs.drop (n - 2)).take b1).map entryOf,
          ((cs.drop (n - 2)).drop b1).map entryOf,
          (cs.drop (n - 2)).map entryOf,
          n + min b1 (cs.drop (n - 2)).length, hA, by simp, ?_, ?_, ?_⟩
  · rw [hB]
    have hm : min b2 ((cs.drop (n - 2)).drop b1).length =
        (((cs.drop (n - 2)).drop b1).map entryOf).length := by
      simp
      omega
    rw [hm]
  · rw [hC]
    have hm : min bigB (cs.drop (n - 2)).length =
        ((cs.drop (n - 2)).map entryOf).length := by
      simp
      omega
    rw [hm]
  · rw [← List.map_append, List.take_append_drop]

/-- C10: when `vtfs_create` or `vtfs_mkdir` has inserted the new node
at the head of the parent's children but `vtfs_get_inode` fails, the
node is removed from the children and freed before `-ENOMEM` is
returned: the heap is left exactly as before the call (the inode
counter, incremented before the failure, is the only change). -/
theorem c10_create_mkdir_enomem_rollback (h : Heap) (nextIno pa newAddr fuel : Nat)
    (parent : NodeRec) (name : List Nat) (mode : Nat)
    (hpa : h pa = some parent)
    (hfresh : h newAddr = none)
    (hscan : nameScan h parent.firstChild name fuel = some false) :
    ((vtfs_create h nextIno pa name mode newAddr true false).1 = .error .ENOMEM ∧
     (∀ a, (vtfs_create h nextIno pa name mode newAddr true false).2.1 a = h a) ∧
     (vtfs_create h nextIno pa name mode newAddr true false).2.2 = nextIno + 1) ∧
    (∃ res, vtfs_mkdir h nextIno pa name mode newAddr true false fuel = some res ∧
      res.1 = .error .ENOMEM ∧ (∀ a, res.2.1 a = h a) ∧ res.2.2 = nextIno + 1) := by
  have hpane : pa ≠ newAddr := by
    intro hh
    rw [hh, hfresh] at hpa
    simp at hpa
  have hheap : ∀ a,
      hfree (hset (hset (hset h newAddr
          { vtfs_alloc_node name true (if mode &&& S_IFMT = 0 then mode ||| S_IFDIR else mode)
            with ino := nextIno, parent := some pa, nextSibling := parent.firstChild }) pa
          { parent with firstChild := some newAddr }) pa
          { parent with firstChild := parent.firstChild }) newAddr a = h a := by
    intro a
    by_cases hna : a = newAddr
    · subst hna
      rw [hfree_same, hfresh]
    · rw [hfree_other _ _ _ hna]
      by_cases hppa : a = pa
      · subst hppa
        rw [hset_same]
        exact hpa.symm
      · rw [hset_other _ _ _ _ hppa, hset_other _ _ _ _ hppa, hset_other _ _ _ _ hna]
  have hheap2 : ∀ a,
      hfree (hset (hset (hset h newAddr
          { vtfs_alloc_node name false mode
            with ino := nextIno, parent := some pa, nextSibling := parent.firstChild }) pa
          { parent with firstChild := some newAddr }) pa
          { parent with firstChild := parent.firstChild }) newAddr a = h a := by
    intro a
    by_cases hna : a = newAddr
    · subst hna
      rw [hfree_same, hfresh]
    · rw [hfree_other _ _ _ hna]
      by_cases hppa : a = pa
      · subst hppa
        rw [hset_same]
        exact hpa.symm
      · rw [hset_other _ _ _ _ hppa, hset_other _ _ _ _ hppa, hset_other _ _ _ _ hna]
  constructor
  · unfold vtfs_create
    rw [hpa]
    exact ⟨rfl, hheap2, rfl⟩
  · unfold vtfs_mkdir
    simp only [hpa, hscan]
    exact ⟨_, rfl, rfl, hheap, rfl⟩

/-- C5: if a child with exactly the requested name already exists,
`vtfs_mkdir` fails with `-EEXIST` and leaves everything unchanged; and
after creating a directory and calling `vtfs_mkdir` again with the same
name, the second call fails with `-EEXIST` and the children contain
exactly one entry with that name. -/
theorem c5_mkdir_already_exists (h : Heap) (nextIno pa newAddr : Nat)
    (parent : NodeRec) (cs : List (Nat × NodeRec)) (name : List Nat)
    (mode fuel : Nat) (allocOk inodeOk : Bool)
    (hpa : h pa = some parent)
    (hc : isChain h parent.firstChild cs)
    (hfuel : cs.length + 1 < fuel) :
    ((∃ p ∈ cs, p.2.name = name) →
      vtfs_mkdir h nextIno pa name mode newAddr allocOk inodeOk fuel =
        some (.error .EEXIST, h, nextIno)) ∧
    (name.length ≤ VTFS_FILE_NAME_LEN - 1 →
     (∀ p ∈ cs, p.2.name ≠ name) →
     h newAddr = none →
     pa ∉ cs.map Prod.fst →
     ∀ nextIno2 newAddr2 (allocOk2 inodeOk2 : Bool),
      ∃ h2 node1,
        vtfs_mkdir h nextIno pa name mode newAddr true true fuel =
          some (.ok newAddr, h2, nextIno + 1) ∧
        isChain h2 (some newAddr) ((newAddr, node1) :: cs) ∧
        (∀ r, h2 pa = some r → r.firstChild = some newAddr) ∧
        node1.name = name ∧
        ((newAddr, node1) :: cs).countP (fun p => decide (p.2.name = name)) = 1 ∧
        vtfs_mkdir h2 nextIno2 pa name mode newAddr2 allocOk2 inodeOk2 fuel =
          some (.error .EEXIST, h2, nextIno2)) := by
  constructor
  · intro hfound
    have hscan := nameScan_found h name cs parent.firstChild fuel hc (by omega) hfound
    unfold vtfs_mkdir
    simp only [hpa, hscan]
  · intro hlen hnone hfresh hpan nextIno2 newAddr2 allocOk2 inodeOk2
    have hscan := nameScan_not_found h name cs parent.firstChild fuel hc (by omega) hnone
    have hpane : pa ≠ newAddr := by
      intro hh
      rw [hh, hfresh] at hpa
      simp at hpa
    refine ⟨hset (hset h newAddr ({ vtfs_alloc_node name true
        (if mode &&& S_IFMT = 0 then mode ||| S_IFDIR else mode) with
        ino := nextIno, parent := some pa, nextSibling := parent.firstChild } : NodeRec)) pa
        { parent with firstChild := some newAddr },
      { vtfs_alloc_node name true
        (if mode &&& S_IFMT = 0 then mode ||| S_IFDIR else mode) with
        ino := nextIno, parent := some pa, nextSibling := parent.firstChild },
      ?_, ?_, ?_, ?_, ?_, ?_⟩
    · unfold vtfs_mkdir
      simp only [hpa, hscan]
      rfl
    · refine ⟨rfl, ?_, ?_⟩
      · rw [hset_other _ _ _ _ (Ne.symm hpane), hset_same]
      · show isChain _ parent.firstChild cs
        apply isChain_mono h _ _ _ hc
        intro q hq
        have hqa : h q.1 = some q.2 := isChain_mem_alloc h parent.firstChild cs hc q hq
        have hqpa : q.1 ≠ pa := by
          intro hh
          exact hpan (hh ▸ List.mem_map_of_mem Prod.fst hq)
        have hqnew : q.1 ≠ newAddr := by
          intro hh
          rw [hh, hfresh] at hqa
          simp at hqa
        rw [hset_other _ _ _ _ hqpa, hset_other _ _ _ _ hqnew]
    · intro r hr
      rw [hset_same] at hr
      cases hr
      rfl
    · show (vtfs_alloc_node name true
          (if mode &&& S_IFMT = 0 then mode ||| S_IFDIR else mode)).name = name
      unfold vtfs_alloc_node
      exact List.take_of_length_le hlen
    · have hname : (vtfs_alloc_node name true
          (if mode &&& S_IFMT = 0 then mode ||| S_IFDIR else mode)).name = name := by
        unfold vtfs_alloc_node
        exact List.take_of_length_le hlen
      have hzero : cs.countP (fun p => decide (p.2.name = name)) = 0 := by
        rw [List.countP_eq_zero]
        intro p hp
        simp only [decide_eq_true_eq]
        exact hnone p hp
      rw [List.countP_cons, hzero]
      simp [hname]
    · have hchain2 : isChain (hset (hset h newAddr ({ vtfs_alloc_node name true
          (if mode &&& S_IFMT = 0 then mode ||| S_IFDIR else mode) with
          ino := nextIno, parent := some pa, nextSibling := parent.firstChild } : NodeRec)) pa
          { parent with firstChild := some newAddr }) (some newAddr)
          ((newAddr, { vtfs_alloc_node name true
            (if mode &&& S_IFMT = 0 then mode ||| S_IFDIR else mode) with
            ino := nextIno, parent := some pa, nextSibling := parent.firstChild }) :: cs) := by
        refine ⟨rfl, ?_, ?_⟩
        · rw [hset_other _ _ _ _ (Ne.symm hpane), hset_same]
        · show isChain _ parent.firstChild cs
          apply isChain_mono h _ _ _ hc
          intro q hq
          have hqa : h q.1 = some q.2 := isChain_mem_alloc h parent.firstChild cs hc q hq
          have hqpa : q.1 ≠ pa := by
            intro hh
            exact hpan (hh ▸ List.mem_map_of_mem Prod.fst hq)
          have hqnew : q.1 ≠ newAddr := by
            intro hh
            rw [hh, hfresh] at hqa
            simp at hqa
          rw [hset_other _ _ _ _ hqpa, hset_other _ _ _ _ hqnew]
      have hname : (vtfs_alloc_node name true
          (if mode &&& S_IFMT = 0 then mode ||| S_IFDIR else mode)).name = name := by
        unfold vtfs_alloc_node
        exact List.take_of_length_le hlen
      have hscan2 := nameScan_found _ name _ (some newAddr) fuel hchain2
        (by simp; omega)
        ⟨(newAddr, { vtfs_alloc_node name true
            (if mode &&& S_IFMT = 0 then mode ||| S_IFDIR else mode) with
            ino := nextIno, parent := some pa, nextSibling := parent.firstChild }),
          List.mem_cons_self _ _, hname⟩
      unfold vtfs_mkdir
      simp only [hset_same, hscan2]

/-- Inserting a freshly allocated node at the head of the children
(head insertion as done by create/mkdir/link) extends the chain. -/
theorem isChain_insert_head (h : Heap) (pa newAddr : Nat) (parent node1 parent2 : NodeRec)
    (cs : List (Nat × NodeRec))
    (hpa : h pa = some parent) (hc : isChain h parent.firstChild cs)
    (hfresh : h newAddr = none) (hpan : pa ∉ cs.map Prod.fst)
    (hpane : pa ≠ newAddr)
    (hnext : node1.nextSibling = parent.firstChild) :
    isChain (hset (hset h newAddr node1) pa parent2) (some newAddr)
      ((newAddr, node1) :: cs) := by
  refine ⟨rfl, ?_, ?_⟩
  · rw [hset_other _ _ _ _ (Ne.symm hpane), hset_same]
  · rw [hnext]
    apply isChain_mono h _ _ _ hc
    intro q hq
    have hqa : h q.1 = some q.2 := isChain_mem_alloc h parent.firstChild cs hc q hq
    have hqpa : q.1 ≠ pa := by
      intro hh
      exact hpan (hh ▸ List.mem_map_of_mem Prod.fst hq)
    have hqnew : q.1 ≠ newAddr := by
      intro hh
      rw [hh, hfresh] at hqa
      simp at hqa
    rw [hset_other _ _ _ _ hqpa, hset_other _ _ _ _ hqnew]

/-- C9 (with the corrected bound): `vtfs_alloc_node` keeps at most
`VTFS_FILE_NAME_LEN - 1 = 254` bytes of the supplied name — `strscpy`
into the 255-byte array truncates silently, no error is returned — and
the truncated prefix is exactly what `vtfs_lookup` and `vtfs_iterate`
observe afterwards. -/
theorem c9_alloc_truncates_silently (h : Heap) (nextIno pa newAddr : Nat)
    (parent : NodeRec) (cs : List (Nat × NodeRec)) (name : List Nat)
    (mode dmode si pi fuel b : Nat) (is_dir : Bool)
    (hpa : h pa = some parent)
    (hc : isChain h parent.firstChild cs)
    (hfresh : h newAddr = none)
    (hpan : pa ∉ cs.map Prod.fst)
    (hfuel : cs.length + 1 < fuel)
    (hnc : ∀ p ∈ cs, p.2.name ≠ name.take (VTFS_FILE_NAME_LEN - 1))
    (hdmode : dmode &&& S_IFMT = S_IFDIR)
    (hb : 0 < b) :
    (vtfs_alloc_node name is_dir mode).name = name.take (VTFS_FILE_NAME_LEN - 1) ∧
    (vtfs_alloc_node name is_dir mode).name.length ≤ VTFS_FILE_NAME_LEN - 1 ∧
    ∃ h2,
      vtfs_create h nextIno pa name mode newAddr true true =
        (.ok newAddr, h2, nextIno + 1) ∧
      (∀ r, h2 newAddr = some r → r.name = name.take (VTFS_FILE_NAME_LEN - 1)) ∧
      vtfs_lookup h2 pa (name.take (VTFS_FILE_NAME_LEN - 1)) fuel = some (some newAddr) ∧
      ∃ es p2, vtfs_iterate h2 pa dmode si pi 2 b fuel = some (.ok (es, p2)) ∧
        es.head?.map DirEntry.name = some (name.take (VTFS_FILE_NAME_LEN - 1)) := by
  have hpane : pa ≠ newAddr := by
    intro hh
    rw [hh, hfresh] at hpa
    simp at hpa
  have htrunc : (vtfs_alloc_node name is_dir mode).name
      = name.take (VTFS_FILE_NAME_LEN - 1) := rfl
  refine ⟨htrunc, ?_, ?_⟩
  · rw [htrunc]
    simp
  · refine ⟨hset (hset h newAddr
        ({ vtfs_alloc_node name false mode with
           ino := nextIno, parent := some pa, nextSibling := parent.firstChild } : NodeRec)) pa
        { parent with firstChild := some newAddr }, ?_, ?_, ?_, ?_⟩
    · unfold vtfs_create
      rw [hpa]
      rfl
    · intro r hr
      rw [hset_other _ _ _ _ (Ne.symm hpane), hset_same] at hr
      cases hr
      rfl
    · unfold vtfs_lookup
      rw [hset_same]
      show lookupScan _ (some newAddr) _ fuel = some (some newAddr)
      apply lookupScan_head _ _ _ ({ vtfs_alloc_node name false mode with
        ino := nextIno, parent := some pa, nextSibling := parent.firstChild } : NodeRec)
        fuel (by omega)
      · rw [hset_other _ _ _ _ (Ne.symm hpane), hset_same]
      · rfl
    · have hchain2 := isChain_insert_head h pa newAddr parent
        ({ vtfs_alloc_node name false mode with
           ino := nextIno, parent := some pa, nextSibling := parent.firstChild } : NodeRec)
        { parent with firstChild := some newAddr } cs hpa hc hfresh hpan hpane rfl
      have hiter := vtfs_iterate_at (hset (hset h newAddr _) pa
          { parent with firstChild := some newAddr }) pa
        { parent with firstChild := some newAddr }
        ((newAddr, { vtfs_alloc_node name false mode with
           ino := nextIno, parent := some pa, nextSibling := parent.firstChild }) :: cs)
        dmode si pi 2 b fuel hdmode (hset_same _ _ _) hchain2 (by omega) (by simp)
        (by simp; omega)
      refine ⟨_, _, hiter, ?_⟩
      cases b with
      | zero => omega
      | succ b =>
        simp only [Nat.sub_self, List.drop_zero, List.take_succ_cons, List.map_cons,
          List.head?_cons, Option.map_some]
        show some (entryOf _).name = _
        unfold entryOf
        simp only []
        congr 1
        show (({ vtfs_alloc_node name false mode with
           ino := nextIno, parent := some pa, nextSibling := parent.firstChild } : NodeRec)).name.take
             VTFS_FILE_NAME_LEN = name.take (VTFS_FILE_NAME_LEN - 1)
        apply List.take_of_length_le
        simp [vtfs_alloc_node]

/-- The growth block never touches the tree-linkage fields. -/
theorem growStep_linkTarget (node : NodeRec) (e : Nat) (node1 : NodeRec)
    (hg : growStep node e = some node1) : node1.linkTarget = node.linkTarget := by
  unfold growStep at hg
  by_cases hc : e > node.capacity
  · simp only [hc, if_true] at hg
    cases hF : growLoopF (if node.capacity = 0 then PAGE_SIZE else node.capacity) e GROW_FUEL with
    | none =>
      rw [hF] at hg
      simp at hg
    | some nc =>
      rw [hF] at hg
      simp only [Option.some.injEq] at hg
      rw [← hg]
  · simp only [hc, if_false, Option.some.injEq] at hg
    rw [← hg]

/-- Unfolding equation for `vtfs_data_node`, usable to rewrite a single
occurrence. -/
theorem vtfs_data_node_eq (h : Heap) (a : Nat) :
    vtfs_data_node h a =
      match h a with
      | some r => match r.linkTarget with
                  | some t => t
                  | none => a
      | none => a := rfl

set_option maxHeartbeats 1600000 in
/-- `vtfs_write` never changes the `link_target` of the node it writes
(only `data`, `size`, `capacity` are updated). -/
theorem vtfs_write_node_linkTarget (node : NodeRec) (ppos : Int) (buf : List Nat)
    (cc : Nat) (ap : Bool) :
    (vtfs_write_node node ppos buf cc ap).node.linkTarget = node.linkTarget := by
  unfold vtfs_write_node
  simp only []
  repeat' split
  all_goals
    first
      | rfl
      | (rename_i heq; have hlt := growStep_linkTarget _ _ _ heq; exact hlt)
      | (rename_i heq a; have hlt := growStep_linkTarget _ _ _ heq; exact hlt)
      | (rename_i heq a b; have hlt := growStep_linkTarget _ _ _ heq; exact hlt)
      | (rename_i heq a b c; have hlt := growStep_linkTarget _ _ _ heq; exact hlt)
      | (rename_i heq a b c d; have hlt := growStep_linkTarget _ _ _ heq; exact hlt)
      | (rename_i heq a b c d e; have hlt := growStep_linkTarget _ _ _ heq; exact hlt)
      | (rename_i heq a b c d e f; have hlt := growStep_linkTarget _ _ _ heq; exact hlt)

/-- C8: `vtfs_link` points the new alias node at the true data owner —
even when the linked-to node is itself an alias, so aliases never
chain — and afterwards writes through the original name and reads
through the new alias (and vice versa) see one shared buffer. -/
theorem c8_link_shares_buffer (h : Heap) (pa olda newAddr : Nat)
    (parent oldr tr : NodeRec) (name : List Nat)
    (hpa : h pa = some parent)
    (hold : h olda = some oldr)
    (hnotdir : ¬ oldr.mode &&& S_IFMT = S_IFDIR)
    (hfresh : h newAddr = none)
    (hpaold : pa ≠ olda)
    (ht : h (vtfs_data_node h olda) = some tr)
    (htown : tr.linkTarget = none)
    (htdir : tr.isDir = false)
    (htpa : vtfs_data_node h olda ≠ pa)
    (hwf : BufWf tr) :
    ∃ h2,
      vtfs_link h pa olda name newAddr true = (.ok newAddr, h2) ∧
      (∀ r, h2 newAddr = some r → r.linkTarget = some (vtfs_data_node h olda)) ∧
      vtfs_data_node h2 newAddr = vtfs_data_node h2 olda ∧
      (∃ tr2, h2 (vtfs_data_node h2 newAddr) = some tr2 ∧ tr2.linkTarget = none) ∧
      (∀ (ppos : Int) (buf : List Nat) (cc : Nat),
        0 ≤ ppos → ppos.toNat + buf.length ≤ 2 ^ 63 → buf.length ≤ cc →
        ((vtfs_write h2 olda ppos buf cc false).1 = .ok buf.length ∧
         vtfs_read (vtfs_write h2 olda ppos buf cc false).2.1 newAddr ppos buf.length =
           .ok (buf, ppos + buf.length)) ∧
        ((vtfs_write h2 newAddr ppos buf cc false).1 = .ok buf.length ∧
         vtfs_read (vtfs_write h2 newAddr ppos buf cc false).2.1 olda ppos buf.length =
           .ok (buf, ppos + buf.length))) := by
  have hpanew : pa ≠ newAddr := by
    intro hh
    rw [hh, hfresh] at hpa
    simp at hpa
  have holdnew : olda ≠ newAddr := by
    intro hh
    rw [hh, hfresh] at hold
    simp at hold
  have htnew : vtfs_data_node h olda ≠ newAddr := by
    intro hh
    rw [hh, hfresh] at ht
    simp at ht
  have hda : (match oldr.linkTarget with | some t => t | none => olda)
      = vtfs_data_node h olda := by
    unfold vtfs_data_node
    rw [hold]
  have h2new : hset (hset h newAddr
      ({ name := name.take (VTFS_FILE_NAME_LEN - 1), ino := oldr.ino, isDir := false
         mode := oldr.mode, parent := some pa, firstChild := none
         nextSibling := parent.firstChild
         linkTarget := some (match oldr.linkTarget with | some t => t | none => olda)
         data := none, size := 0, capacity := 0 } : NodeRec)) pa
      { parent with firstChild := some newAddr } newAddr =
      some ({ name := name.take (VTFS_FILE_NAME_LEN - 1), ino := oldr.ino, isDir := false
              mode := oldr.mode, parent := some pa, firstChild := none
              nextSibling := parent.firstChild
              linkTarget := some (match oldr.linkTarget with | some t => t | none => olda)
              data := none, size := 0, capacity := 0 } : NodeRec) := by
    rw [hset_other _ _ _ _ (Ne.symm hpanew), hset_same]
  have h2old : hset (hset h newAddr
      ({ name := name.take (VTFS_FILE_NAME_LEN - 1), ino := oldr.ino, isDir := false
         mode := oldr.mode, parent := some pa, firstChild := none
         nextSibling := parent.firstChild
         linkTarget := some (match oldr.linkTarget with | some t => t | none => olda)
         data := none, size := 0, capacity := 0 } : NodeRec)) pa
      { parent with firstChild := some newAddr } olda = some oldr := by
    rw [hset_other _ _ _ _ (Ne.symm hpaold), hset_other _ _ _ _ holdnew]
    exact hold
  have h2T : hset (hset h newAddr
      ({ name := name.take (VTFS_FILE_NAME_LEN - 1), ino := oldr.ino, isDir := false
         mode := oldr.mode, parent := some pa, firstChild := none
         nextSibling := parent.firstChild
         linkTarget := some (match oldr.linkTarget with | some t => t | none => olda)
         data := none, size := 0, capacity := 0 } : NodeRec)) pa
      { parent with firstChild := some newAddr } (vtfs_data_node h olda) = some tr := by
    rw [hset_other _ _ _ _ htpa, hset_other _ _ _ _ htnew]
    exact ht
  have hresnew : vtfs_data_node (hset (hset h newAddr
      ({ name := name.take (VTFS_FILE_NAME_LEN - 1), ino := oldr.ino, isDir := false
         mode := oldr.mode, parent := some pa, firstChild := none
         nextSibling := parent.firstChild
         linkTarget := some (match oldr.linkTarget with | some t => t | none => olda)
         data := none, size := 0, capacity := 0 } : NodeRec)) pa
      { parent with firstChild := some newAddr }) newAddr = vtfs_data_node h olda := by
    unfold vtfs_data_node
    rw [h2new]
    exact hda
  have hresold : vtfs_data_node (hset (hset h newAddr
      ({ name := name.take (VTFS_FILE_NAME_LEN - 1), ino := oldr.ino, isDir := false
         mode := oldr.mode, parent := some pa, firstChild := none
         nextSibling := parent.firstChild
         linkTarget := some (match oldr.linkTarget with | some t => t | none => olda)
         data := none, size := 0, capacity := 0 } : NodeRec)) pa
      { parent with firstChild := some newAddr }) olda = vtfs_data_node h olda := by
    unfold vtfs_data_node
    rw [h2old]
    rw [hold]
  refine ⟨hset (hset h newAddr
      ({ name := name.take (VTFS_FILE_NAME_LEN - 1), ino := oldr.ino, isDir := false
         mode := oldr.mode, parent := some pa, firstChild := none
         nextSibling := parent.firstChild
         linkTarget := some (match oldr.linkTarget with | some t => t | none => olda)
         data := none, size := 0, capacity := 0 } : NodeRec)) pa
      { parent with firstChild := some newAddr }, ?_, ?_, ?_, ?_, ?_⟩
  · unfold vtfs_link
    simp only [hold, hpa]
    rw [if_neg hnotdir]
    rfl
  · intro r hr
    rw [h2new] at hr
    cases hr
    simp only [hda]
  · rw [hresnew, hresold]
  · rw [hresnew]
    exact ⟨tr, h2T, htown⟩
  · intro ppos buf cc hpos hbound hcc
    obtain ⟨hr1, hr2⟩ := write_read_roundtrip tr ppos buf cc htdir hpos hwf hcc hbound
    have hwrite_old : vtfs_write (hset (hset h newAddr
        ({ name := name.take (VTFS_FILE_NAME_LEN - 1), ino := oldr.ino, isDir := false
           mode := oldr.mode, parent := some pa, firstChild := none
           nextSibling := parent.firstChild
           linkTarget := some (match oldr.linkTarget with | some t => t | none => olda)
           data := none, size := 0, capacity := 0 } : NodeRec)) pa
        { parent with firstChild := some newAddr }) olda ppos buf cc false =
        ((vtfs_write_node tr ppos buf cc false).ret,
         hset (hset (hset h newAddr
           ({ name := name.take (VTFS_FILE_NAME_LEN - 1), ino := oldr.ino, isDir := false
              mode := oldr.mode, parent := some pa, firstChild := none
              nextSibling := parent.firstChild
              linkTarget := some (match oldr.linkTarget with | some t => t | none => olda)
              data := none, size := 0, capacity := 0 } : NodeRec)) pa
           { parent with firstChild := some newAddr }) (vtfs_data_node h olda)
           (vtfs_write_node tr ppos buf cc false).node,
         (vtfs_write_node tr ppos buf cc false).pos) := by
      unfold vtfs_write
      simp only [hresold, h2T]
    have hwrite_new : vtfs_write (hset (hset h newAddr
        ({ name := name.take (VTFS_FILE_NAME_LEN - 1), ino := oldr.ino, isDir := false
           mode := oldr.mode, parent := some pa, firstChild := none
           nextSibling := parent.firstChild
           linkTarget := some (match oldr.linkTarget with | some t => t | none => olda)
           data := none, size := 0, capacity := 0 } : NodeRec)) pa
        { parent with firstChild := some newAddr }) newAddr ppos buf cc false =
        ((vtfs_write_node tr ppos buf cc false).ret,
         hset (hset (hset h newAddr
           ({ name := name.take (VTFS_FILE_NAME_LEN - 1), ino := oldr.ino, isDir := false
              mode := oldr.mode, parent := some pa, firstChild := none
              nextSibling := parent.firstChild
              linkTarget := some (match oldr.linkTarget with | some t => t | none => olda)
              data := none, size := 0, capacity := 0 } : NodeRec)) pa
           { parent with firstChild := some newAddr }) (vtfs_data_node h olda)
           (vtfs_write_node tr ppos buf cc false).node,
         (vtfs_write_node tr ppos buf cc false).pos) := by
      unfold vtfs_write
      simp only [hresnew, h2T]
    have hres3new : vtfs_data_node (hset (hset (hset h newAddr
        ({ name := name.take (VTFS_FILE_NAME_LEN - 1), ino := oldr.ino, isDir := false
           mode := oldr.mode, parent := some pa, firstChild := none
           nextSibling := parent.firstChild
           linkTarget := some (match oldr.linkTarget with | some t => t | none => olda)
           data := none, size := 0, capacity := 0 } : NodeRec)) pa
        { parent with firstChild := some newAddr }) (vtfs_data_node h olda)
        (vtfs_write_node tr ppos buf cc false).node) newAddr = vtfs_data_node h olda := by
      rw [vtfs_data_node_eq]
      rw [hset_other _ _ _ _ (Ne.symm htnew)]
      simp only [h2new]
      exact hda
    have hres3old : vtfs_data_node (hset (hset (hset h newAddr
        ({ name := name.take (VTFS_FILE_NAME_LEN - 1), ino := oldr.ino, isDir := false
           mode := oldr.mode, parent := some pa, firstChild := none
           nextSibling := parent.firstChild
           linkTarget := some (match oldr.linkTarget with | some t => t | none => olda)
           data := none, size := 0, capacity := 0 } : NodeRec)) pa
        { parent with firstChild := some newAddr }) (vtfs_data_node h olda)
        (vtfs_write_node tr ppos buf cc false).node) olda = vtfs_data_node h olda := by
      by_cases holdT : olda = vtfs_data_node h olda
      · rw [← holdT]
        rw [vtfs_data_node_eq]
        simp only [hset_same, vtfs_write_node_linkTarget tr ppos buf cc false, htown]
      · rw [vtfs_data_node_eq]
        rw [hset_other _ _ _ _ holdT]
        simp only [h2old]
        exact hda
    constructor
    · rw [hwrite_old]
      refine ⟨hr1, ?_⟩
      unfold vtfs_read
      simp only [hres3new, hset_same]
      exact hr2
    · rw [hwrite_new]
      refine ⟨hr1, ?_⟩
      unfold vtfs_read
      simp only [hres3old, hset_same]
      exact hr2

/-! ## Concrete fixtures for instantiating the claim theorems -/

/-- A concrete empty regular file (mode `S_IFREG | 0644`), child of the
root, allocated at address 2. -/
def fileA : NodeRec :=
  { name := [97], ino := 2, isDir := false, mode := 0x81A4, parent := some 1,
    firstChild := none, nextSibling := none, linkTarget := none,
    data := none, size := 0, capacity := 0 }

/-- A concrete root directory (mode `S_IFDIR | 0755`) at address 1 whose
only child is `fileA` at address 2. -/
def rootNode : NodeRec :=
  { name := [47], ino := 1, isDir := true, mode := 0x41ED, parent := none,
    firstChild := some 2, nextSibling := none, linkTarget := none,
    data := none, size := 0, capacity := 0 }

/-- The concrete two-node heap: `rootNode` at 1, `fileA` at 2. -/
def heap0 : Heap :=
  fun a => if a = 1 then some rootNode else if a = 2 then some fileA else none

/-! ## Claim theorems for the buffer engine -/

/-- C1 counterexample: the round trip does not hold for every offset and
length within the address-space bound (`end_pos ≤ SIZE_MAX`).  At
`offset = 2 ^ 63` the capacity-doubling loop reaches a capacity above
`SIZE_MAX / 2` while still short of `end_pos`, so the write fails with
`-EFBIG` and reading back returns no bytes. -/
theorem c1_roundtrip_fails_within_size_max :
    (9223372036854775808 : Int).toNat + ([7] : List Nat).length ≤ SIZE_MAX ∧
    fileA.isDir = false ∧ BufWf fileA ∧
    (vtfs_write_node fileA 9223372036854775808 [7] 1 false).ret = .error .EFBIG ∧
    vtfs_read_node (vtfs_write_node fileA 9223372036854775808 [7] 1 false).node
        9223372036854775808 1 ≠
      .ok ([7], 9223372036854775808 + 1) := by decide

/-- C1 (amended): writing a byte sequence and reading it back at the
same offset and length returns exactly the bytes written, for every
offset/length combination with `offset + len ≤ 2 ^ 63`.  The amended
bound is the strongest possible one: beyond `2 ^ 63` the
capacity-doubling loop refuses to grow the buffer even though
`offset + len` still fits in `size_t`. -/
theorem c1_write_read_roundtrip (node : NodeRec) (ppos : Int) (buf : List Nat)
    (copyCap : Nat) (hdir : node.isDir = false) (hpos : 0 ≤ ppos) (hwf : BufWf node)
    (hcap : buf.length ≤ copyCap)
    (hbound : ppos.toNat + buf.length ≤ 2 ^ 63) :
    (vtfs_write_node node ppos buf copyCap false).ret = .ok buf.length ∧
    vtfs_read_node (vtfs_write_node node ppos buf copyCap false).node ppos buf.length =
      .ok (buf, ppos + buf.length) :=
  write_read_roundtrip node ppos buf copyCap hdir hpos hwf hcap hbound

/-- C2: when `copy_from_user` copies only `copyCap < len` bytes the
write accounts exactly for the copied bytes: it returns the copied
count as a successful short write when at least one byte landed,
returns `-EFAULT` exactly when zero bytes landed, advances `*ppos` by
exactly the copied count, and `size` becomes `max size (pos + copied)`. -/
theorem c2_partial_copy_accounting (node : NodeRec) (ppos : Int) (buf : List Nat)
    (copyCap : Nat) (hdir : node.isDir = false) (hpos : 0 ≤ ppos) (hwf : BufWf node)
    (hshort : copyCap < buf.length)
    (hbound : ppos.toNat + buf.length ≤ 2 ^ 63) :
    (vtfs_write_node node ppos buf copyCap false).ret =
      (if copyCap = 0 then .error .EFAULT else .ok copyCap) ∧
    (vtfs_write_node node ppos buf copyCap false).pos = ppos + copyCap ∧
    (vtfs_write_node node ppos buf copyCap false).node.size =
      max node.size (ppos.toNat + copyCap) :=
  vtfs_write_node_short node ppos buf copyCap hdir hpos hwf hshort hbound

/-- C3: writing `buf` at an offset strictly beyond the current size
zero-fills the gap: the write succeeds in full, the new size is
`offset + len`, and reading the former gap returns only zero bytes. -/
theorem c3_gap_zero_fill (node : NodeRec) (ppos : Int) (buf : List Nat) (copyCap : Nat)
    (hdir : node.isDir = false) (hpos : 0 ≤ ppos) (hwf : BufWf node)
    (hgap : node.size < ppos.toNat) (hlen : 0 < buf.length) (hcap : buf.length ≤ copyCap)
    (hbound : ppos.toNat + buf.length ≤ 2 ^ 63) :
    (vtfs_write_node node ppos buf copyCap false).ret = .ok buf.length ∧
    (vtfs_write_node node ppos buf copyCap false).node.size = ppos.toNat + buf.length ∧
    vtfs_read_node (vtfs_write_node node ppos buf copyCap false).node
        (node.size : Int) (ppos.toNat - node.size) =
      .ok (List.replicate (ppos.toNat - node.size) 0,
           (node.size : Int) + (ppos.toNat - node.size : Nat)) :=
  write_gap_read node ppos buf copyCap hdir hpos hwf hgap hlen hcap hbound

/-- C4: when the write's end offset exceeds the current capacity, the
capacity is grown by doubling — starting from `PAGE_SIZE` when the old
capacity was zero, else from the old capacity — to the first doubling
`≥ end_pos`, and the newly grown region beyond the old capacity is
zero-filled; when the doubling loop would overflow (`> SIZE_MAX / 2`
while still short of `end_pos`) the write fails with `-EFBIG`, leaving
the node unchanged. -/
theorem c4_capacity_growth (node : NodeRec) (ppos : Int) (buf : List Nat) (copyCap : Nat)
    (hdir : node.isDir = false) (hpos : 0 ≤ ppos) (hwf : BufWf node)
    (hlen : 0 < buf.length) (hcap : buf.length ≤ copyCap)
    (hneed : node.capacity < ppos.toNat + buf.length) :
    (ppos.toNat + buf.length ≤ 2 ^ 63 →
      ∃ nodeW dW k,
        vtfs_write_node node ppos buf copyCap false =
          ⟨.ok buf.length, nodeW, ppos + buf.length⟩ ∧
        nodeW.data = some dW ∧
        growLoopF (if node.capacity = 0 then PAGE_SIZE else node.capacity)
          (ppos.toNat + buf.length) GROW_FUEL = some nodeW.capacity ∧
        ppos.toNat + buf.length ≤ nodeW.capacity ∧
        nodeW.capacity =
          (if node.capacity = 0 then PAGE_SIZE else node.capacity) * 2 ^ k ∧
        (k = 0 ∨ (if node.capacity = 0 then PAGE_SIZE else node.capacity) * 2 ^ (k - 1) <
          ppos.toNat + buf.length) ∧
        (∀ i, ppos.toNat + buf.length ≤ i → node.capacity ≤ i → i < nodeW.capacity →
          dW[i]? = some 0)) ∧
    (growLoopF (if node.capacity = 0 then PAGE_SIZE else node.capacity)
        (ppos.toNat + buf.length) GROW_FUEL = none →
      ppos.toNat ≤ SIZE_MAX → buf.length ≤ SIZE_MAX - ppos.toNat →
      vtfs_write_node node ppos buf copyCap false = ⟨.error .EFBIG, node, ppos⟩) := by
  constructor
  · intro hbound
    obtain ⟨nodeW, dW, hmain, hdirW, hszW, hdataW, hlenW, hcapW, hextract,
      hpre, hgap, hbeyond, hgrow, hnoc⟩ :=
      vtfs_write_node_full node ppos buf copyCap hdir hpos hwf hlen hcap hbound
    have hG := hgrow hneed
    obtain ⟨k, hk, hmin⟩ := growLoopF_pow _ _ _ _ hG
    exact ⟨nodeW, dW, k, hmain, hdataW, hG, hcapW, hk, hmin, hbeyond⟩
  · intro hnone hp hl
    apply vtfs_write_node_overflow node ppos buf copyCap hdir hpos (by omega) hp hl
    rw [growStep_none_iff]
    exact ⟨hneed, hnone⟩

set_option maxRecDepth 8192 in
/-- C9 counterexample: a 255-byte name is already truncated — the code
stores at most `VTFS_FILE_NAME_LEN - 1 = 254` bytes (`strscpy` keeps a
NUL in the 255-byte array), not the 255 bytes the spec allows. -/
theorem c9_name_bound_is_254 :
    (List.replicate 255 97).length ≤ VTFS_FILE_NAME_LEN ∧
    (vtfs_alloc_node (List.replicate 255 97) false 0).name ≠ List.replicate 255 97 ∧
    (vtfs_alloc_node (List.replicate 255 97) false 0).name = List.replicate 254 97 := by
  decide

/-! ## Witnesses: each claim theorem applied at a concrete input -/

/-- C1 witness: the amended round trip at a concrete input. -/
theorem c1_write_read_roundtrip_witness :
    fileA.isDir = false ∧ (0 : Int) ≤ 0 ∧ BufWf fileA ∧
    ([5, 6] : List Nat).length ≤ 2 ∧
    (0 : Int).toNat + ([5, 6] : List Nat).length ≤ 2 ^ 63 ∧
    ((vtfs_write_node fileA 0 [5, 6] 2 false).ret = .ok ([5, 6] : List Nat).length ∧
     vtfs_read_node (vtfs_write_node fileA 0 [5, 6] 2 false).node 0
         ([5, 6] : List Nat).length =
       .ok ([5, 6], 0 + (([5, 6] : List Nat).length : Int))) :=
  ⟨by decide, by decide, by decide, by decide, by decide,
   c1_write_read_roundtrip fileA 0 [5, 6] 2 (by decide) (by decide) (by decide)
     (by decide) (by decide)⟩

/-- C2 witness: a short write (one of three bytes copied) at a concrete
input. -/
theorem c2_partial_copy_accounting_witness :
    fileA.isDir = false ∧ (0 : Int) ≤ 0 ∧ BufWf fileA ∧
    1 < ([5, 6, 7] : List Nat).length ∧
    (0 : Int).toNat + ([5, 6, 7] : List Nat).length ≤ 2 ^ 63 ∧
    ((vtfs_write_node fileA 0 [5, 6, 7] 1 false).ret =
       (if (1 : Nat) = 0 then .error .EFAULT else .ok 1) ∧
     (vtfs_write_node fileA 0 [5, 6, 7] 1 false).pos = 0 + ((1 : Nat) : Int) ∧
     (vtfs_write_node fileA 0 [5, 6, 7] 1 false).node.size =
       max fileA.size ((0 : Int).toNat + 1)) :=
  ⟨by decide, by decide, by decide, by decide, by decide,
   c2_partial_copy_accounting fileA 0 [5, 6, 7] 1 (by decide) (by decide) (by decide)
     (by decide) (by decide)⟩

/-- C3 witness: a write three bytes past the end of an empty file at a
concrete input. -/
theorem c3_gap_zero_fill_witness :
    fileA.isDir = false ∧ (0 : Int) ≤ 3 ∧ BufWf fileA ∧
    fileA.size < (3 : Int).toNat ∧ 0 < ([9] : List Nat).length ∧
    ([9] : List Nat).length ≤ 1 ∧
    (3 : Int).toNat + ([9] : List Nat).length ≤ 2 ^ 63 ∧
    ((vtfs_write_node fileA 3 [9] 1 false).ret = .ok ([9] : List Nat).length ∧
     (vtfs_write_node fileA 3 [9] 1 false).node.size =
       (3 : Int).toNat + ([9] : List Nat).length ∧
     vtfs_read_node (vtfs_write_node fileA 3 [9] 1 false).node
         (fileA.size : Int) ((3 : Int).toNat - fileA.size) =
       .ok (List.replicate ((3 : Int).toNat - fileA.size) 0,
            (fileA.size : Int) + (((3 : Int).toNat - fileA.size : Nat) : Int))) :=
  ⟨by decide, by decide, by decide, by decide, by decide, by decide, by decide,
   c3_gap_zero_fill fileA 3 [9] 1 (by decide) (by decide) (by decide) (by decide)
     (by decide) (by decide) (by decide)⟩

/-- C4 witness: growth of an empty file's buffer at a concrete input. -/
theorem c4_capacity_growth_witness :
    fileA.isDir = false ∧ (0 : Int) ≤ 0 ∧ BufWf fileA ∧
    0 < ([9] : List Nat).length ∧ ([9] : List Nat).length ≤ 1 ∧
    fileA.capacity < (0 : Int).toNat + ([9] : List Nat).length ∧
    (((0 : Int).toNat + ([9] : List Nat).length ≤ 2 ^ 63 →
      ∃ nodeW dW k,
        vtfs_write_node fileA 0 [9] 1 false =
          ⟨.ok ([9] : List Nat).length, nodeW, 0 + (([9] : List Nat).length : Int)⟩ ∧
        nodeW.data = some dW ∧
        growLoopF (if fileA.capacity = 0 then PAGE_SIZE else fileA.capacity)
          ((0 : Int).toNat + ([9] : List Nat).length) GROW_FUEL = some nodeW.capacity ∧
        (0 : Int).toNat + ([9] : List Nat).length ≤ nodeW.capacity ∧
        nodeW.capacity =
          (if fileA.capacity = 0 then PAGE_SIZE else fileA.capacity) * 2 ^ k ∧
        (k = 0 ∨ (if fileA.capacity = 0 then PAGE_SIZE else fileA.capacity) * 2 ^ (k - 1) <
          (0 : Int).toNat + ([9] : List Nat).length) ∧
        (∀ i, (0 : Int).toNat + ([9] : List Nat).length ≤ i → fileA.capacity ≤ i →
          i < nodeW.capacity → dW[i]? = some 0)) ∧
    (growLoopF (if fileA.capacity = 0 then PAGE_SIZE else fileA.capacity)
        ((0 : Int).toNat + ([9] : List Nat).length) GROW_FUEL = none →
      (0 : Int).toNat ≤ SIZE_MAX → ([9] : List Nat).length ≤ SIZE_MAX - (0 : Int).toNat →
      vtfs_write_node fileA 0 [9] 1 false = ⟨.error .EFBIG, fileA, 0⟩)) :=
  ⟨by decide, by decide, by decide, by decide, by decide, by decide,
   c4_capacity_growth fileA 0 [9] 1 (by decide) (by decide) (by decide) (by decide)
     (by decide) (by decide)⟩

/-- C5 witness: `vtfs_mkdir` collision behaviour on the concrete
two-node heap. -/
theorem c5_mkdir_already_exists_witness :
    heap0 1 = some rootNode ∧
    isChain heap0 rootNode.firstChild [(2, fileA)] ∧
    ([(2, fileA)] : List (Nat × NodeRec)).length + 1 < 3 ∧
    (((∃ p ∈ ([(2, fileA)] : List (Nat × NodeRec)), p.2.name = [98]) →
      vtfs_mkdir heap0 7 1 [98] 0 3 true true 3 = some (.error .EEXIST, heap0, 7)) ∧
    (([98] : List Nat).length ≤ VTFS_FILE_NAME_LEN - 1 →
     (∀ p ∈ ([(2, fileA)] : List (Nat × NodeRec)), p.2.name ≠ [98]) →
     heap0 3 = none →
     1 ∉ ([(2, fileA)] : List (Nat × NodeRec)).map Prod.fst →
     ∀ nextIno2 newAddr2 (allocOk2 inodeOk2 : Bool),
      ∃ h2 node1,
        vtfs_mkdir heap0 7 1 [98] 0 3 true true 3 = some (.ok 3, h2, 7 + 1) ∧
        isChain h2 (some 3) ((3, node1) :: [(2, fileA)]) ∧
        (∀ r, h2 1 = some r → r.firstChild = some 3) ∧
        node1.name = [98] ∧
        ((3, node1) :: [(2, fileA)]).countP (fun p => decide (p.2.name = [98])) = 1 ∧
        vtfs_mkdir h2 nextIno2 1 [98] 0 newAddr2 allocOk2 inodeOk2 3 =
          some (.error .EEXIST, h2, nextIno2))) :=
  ⟨by decide, by decide, by decide,
   c5_mkdir_already_exists heap0 7 1 3 rootNode [(2, fileA)] [98] 0 3 true true
     (by decide) (by decide) (by decide)⟩

/-- C6 witness: `vtfs_unlink` of the file at address 2 under the root
at address 1. -/
theorem c6_unlink_witness :
    heap0 1 = some rootNode ∧ heap0 2 = some fileA ∧
    isChain heap0 rootNode.firstChild [(2, fileA)] ∧
    (1 :: ([(2, fileA)] : List (Nat × NodeRec)).map Prod.fst).Nodup ∧
    ([(2, fileA)] : List (Nat × NodeRec)).length < 2 ∧
    ((fileA.isDir = true → vtfs_unlink heap0 1 2 2 = some (.error .EISDIR, heap0)) ∧
     (fileA.isDir = false → 2 ∉ ([(2, fileA)] : List (Nat × NodeRec)).map Prod.fst →
       vtfs_unlink heap0 1 2 2 = some (.error .ENOENT, heap0)) ∧
     (fileA.isDir = false → 2 ∈ ([(2, fileA)] : List (Nat × NodeRec)).map Prod.fst →
       ∃ h2, vtfs_unlink heap0 1 2 2 = some (.ok (), h2) ∧
         h2 2 = some { fileA with parent := none, nextSibling := none } ∧
         ∃ rp2 ch, h2 1 = some rp2 ∧ isChain h2 rp2.firstChild ch ∧
           ch.map Prod.fst = (([(2, fileA)] : List (Nat × NodeRec)).map Prod.fst).erase 2)) :=
  ⟨by decide, by decide, by decide, by decide, by decide,
   vtfs_unlink_spec heap0 1 2 rootNode fileA [(2, fileA)] 2
     (by decide) (by decide) (by decide) (by decide) (by decide)⟩

/-- C7 witness: iterating the root directory in two resumed steps on
the concrete heap. -/
theorem c7_iterate_resume_witness :
    (0x41ED : Nat) &&& S_IFMT = S_IFDIR ∧
    heap0 1 = some rootNode ∧
    isChain heap0 rootNode.firstChild [(2, fileA)] ∧
    (2 : Nat) ≤ 2 ∧
    2 - 2 + ([(2, fileA)] : List (Nat × NodeRec)).length < 2 ^ 32 ∧
    ([(2, fileA)] : List (Nat × NodeRec)).length < 2 ∧
    (([(2, fileA)] : List (Nat × NodeRec)).drop (2 - 2)).length ≤ 1 ∧
    (([(2, fileA)] : List (Nat × NodeRec)).drop (2 - 2)).length ≤ 1 ∧
    (∃ E1 E2 full p2,
      vtfs_iterate heap0 1 0x41ED 1 1 2 1 2 = some (.ok (E1, p2)) ∧
      p2 = 2 + E1.length ∧
      vtfs_iterate heap0 1 0x41ED 1 1 p2 1 2 = some (.ok (E2, p2 + E2.length)) ∧
      vtfs_iterate heap0 1 0x41ED 1 1 2 1 2 = some (.ok (full, 2 + full.length)) ∧
      E1 ++ E2 = full) :=
  ⟨by decide, by decide, by decide, by decide, by decide, by decide, by decide, by decide,
   vtfs_iterate_resume_spec heap0 1 rootNode [(2, fileA)] 0x41ED 1 1 2 1 1 1 2
     (by decide) (by decide) (by decide) (by decide) (by decide) (by decide)
     (by decide) (by decide)⟩

/-- C8 witness: linking a new alias at address 3 to the file at
address 2 on the concrete heap. -/
theorem c8_link_shares_buffer_witness :
    heap0 1 = some rootNode ∧ heap0 2 = some fileA ∧
    ¬ fileA.mode &&& S_IFMT = S_IFDIR ∧
    heap0 3 = none ∧ (1 : Nat) ≠ 2 ∧
    heap0 (vtfs_data_node heap0 2) = some fileA ∧
    fileA.linkTarget = none ∧ fileA.isDir = false ∧
    vtfs_data_node heap0 2 ≠ 1 ∧ BufWf fileA ∧
    (∃ h2,
      vtfs_link heap0 1 2 [98] 3 true = (.ok 3, h2) ∧
      (∀ r, h2 3 = some r → r.linkTarget = some (vtfs_data_node heap0 2)) ∧
      vtfs_data_node h2 3 = vtfs_data_node h2 2 ∧
      (∃ tr2, h2 (vtfs_data_node h2 3) = some tr2 ∧ tr2.linkTarget = none) ∧
      (∀ (ppos : Int) (buf : List Nat) (cc : Nat),
        0 ≤ ppos → ppos.toNat + buf.length ≤ 2 ^ 63 → buf.length ≤ cc →
        ((vtfs_write h2 2 ppos buf cc false).1 = .ok buf.length ∧
         vtfs_read (vtfs_write h2 2 ppos buf cc false).2.1 3 ppos buf.length =
           .ok (buf, ppos + buf.length)) ∧
        ((vtfs_write h2 3 ppos buf cc false).1 = .ok buf.length ∧
         vtfs_read (vtfs_write h2 3 ppos buf cc false).2.1 2 ppos buf.length =
           .ok (buf, ppos + buf.length)))) :=
  ⟨by decide, by decide, by decide, by decide, by decide, by decide, by decide,
   by decide, by decide, by decide,
   c8_link_shares_buffer heap0 1 2 3 rootNode fileA fileA [98]
     (by decide) (by decide) (by decide) (by decide) (by decide) (by decide)
     (by decide) (by decide) (by decide) (by decide)⟩

/-- C9 witness: creating a file named "b" under the concrete root and
observing the (not truncated, short) name through lookup and iterate. -/
theorem c9_alloc_truncates_silently_witness :
    heap0 1 = some rootNode ∧
    isChain heap0 rootNode.firstChild [(2, fileA)] ∧
    heap0 3 = none ∧
    1 ∉ ([(2, fileA)] : List (Nat × NodeRec)).map Prod.fst ∧
    ([(2, fileA)] : List (Nat × NodeRec)).length + 1 < 3 ∧
    (∀ p ∈ ([(2, fileA)] : List (Nat × NodeRec)),
      p.2.name ≠ ([98] : List Nat).take (VTFS_FILE_NAME_LEN - 1)) ∧
    (0x41ED : Nat) &&& S_IFMT = S_IFDIR ∧
    (0 : Nat) < 1 ∧
    ((vtfs_alloc_node [98] false 0).name = ([98] : List Nat).take (VTFS_FILE_NAME_LEN - 1) ∧
     (vtfs_alloc_node [98] false 0).name.length ≤ VTFS_FILE_NAME_LEN - 1 ∧
     ∃ h2,
       vtfs_create heap0 7 1 [98] 0 3 true true = (.ok 3, h2, 7 + 1) ∧
       (∀ r, h2 3 = some r → r.name = ([98] : List Nat).take (VTFS_FILE_NAME_LEN - 1)) ∧
       vtfs_lookup h2 1 (([98] : List Nat).take (VTFS_FILE_NAME_LEN - 1)) 3 =
         some (some 3) ∧
       ∃ es p2, vtfs_iterate h2 1 0x41ED 1 1 2 1 3 = some (.ok (es, p2)) ∧
         es.head?.map DirEntry.name =
           some (([98] : List Nat).take (VTFS_FILE_NAME_LEN - 1))) :=
  ⟨by decide, by decide, by decide, by decide, by decide, by decide, by decide, by decide,
   c9_alloc_truncates_silently heap0 7 1 3 rootNode [(2, fileA)] [98] 0 0x41ED 1 1 3 1 false
     (by decide) (by decide) (by decide) (by decide) (by decide) (by decide)
     (by decide) (by decide)⟩

/-- C10 witness: the out-of-memory rollback of create and mkdir on the
concrete heap. -/
theorem c10_create_mkdir_enomem_rollback_witness :
    heap0 1 = some rootNode ∧ heap0 3 = none ∧
    nameScan heap0 rootNode.firstChild [98] 2 = some false ∧
    (((vtfs_create heap0 7 1 [98] 0 3 true false).1 = .error .ENOMEM ∧
      (∀ a, (vtfs_create heap0 7 1 [98] 0 3 true false).2.1 a = heap0 a) ∧
      (vtfs_create heap0 7 1 [98] 0 3 true false).2.2 = 7 + 1) ∧
     (∃ res, vtfs_mkdir heap0 7 1 [98] 0 3 true false 2 = some res ∧
       res.1 = .error .ENOMEM ∧ (∀ a, res.2.1 a = heap0 a) ∧ res.2.2 = 7 + 1)) :=
  ⟨by decide, by decide, by decide,
   c10_create_mkdir_enomem_rollback heap0 7 1 3 2 rootNode [98] 0
     (by decide) (by decide) (by decide)⟩
